import Mathlib

/-!
Verification of the MAVLink protocol runtime emitted by
`pymavlink/generator/mavgen_javascript.py`: the X25 checksum engine, the
frame codec (`mavlink.message.prototype.pack`, `MAVLink.prototype.decode`)
and the incremental stream reassembler (`parsePrefix`/`parseLength`/
`parsePayload`/`parseChar`/`parseBuffer`), shallowly embedded over
`List Nat` byte sequences and an explicit connection-state record.

The byte-level primitive packing (`jspack.Pack`/`jspack.Unpack`) lives in
`javascript/lib/jspack/jspack.js`, outside the analyzed sources; those
definitions are modelled from the spec and say so in their doc comments.
-/

namespace Mav

/-- Primitive MAVLink field types, as listed in the generator's `mavfmt`
table (`float, double, char, int8_t, uint8_t, int16_t, uint16_t, int32_t,
uint32_t, int64_t, uint64_t`). -/
inductive FieldType
  | char | i8 | u8 | i16 | u16 | i32 | u32 | i64 | u64 | f32 | f64
deriving DecidableEq, Repr

/-- Modelled from the spec: byte width of each primitive encoding
(char and 8-bit ints are 1 byte, 16-bit 2, 32-bit and float 4,
64-bit and double 8). -/
def width : FieldType → Nat
  | .char => 1 | .i8 => 1 | .u8 => 1
  | .i16 => 2 | .u16 => 2
  | .i32 => 4 | .u32 => 4
  | .i64 => 8 | .u64 => 8
  | .f32 => 4 | .f64 => 8

/-- Signed primitive types, decoded back into negative range by the
unpacker. Floats and doubles are identified with their raw little-endian
bit patterns (modelled from the spec: 4- or 8-byte IEEE-754 images). -/
def isSigned : FieldType → Bool
  | .i8 => true | .i16 => true | .i32 => true | .i64 => true
  | _ => false

/-- One schema field: `(name, primitive_type, array_length_or_0)` in the
declaration-order field list. Names are abstracted to numeric identifiers. -/
structure Field where
  name : Nat
  ftype : FieldType
  array_length : Nat
deriving DecidableEq, Repr

instance : Inhabited Field := ⟨⟨0, .u8, 0⟩⟩

/-- The three wire shapes `mavfmt` can emit for a field: a scalar letter,
a `Ns` raw byte string (arrays of `char`/`int8_t`/`uint8_t`), or `N`
repetitions of a numeric letter. -/
inductive Kind
  | scalar (t : FieldType)
  | bytestr (n : Nat)
  | numarr (t : FieldType) (n : Nat)
deriving DecidableEq, Repr

/-- Wire shape of a field, following `mavfmt`: scalars keep their letter;
arrays of `char`/`int8_t`/`uint8_t` become a byte string of the declared
length; other arrays repeat the element letter. -/
def Field.kind (f : Field) : Kind :=
  if f.array_length = 0 then .scalar f.ftype
  else if f.ftype = .char ∨ f.ftype = .i8 ∨ f.ftype = .u8 then .bytestr f.array_length
  else .numarr f.ftype f.array_length

/-- Byte footprint of a wire shape. -/
def kindSize : Kind → Nat
  | .scalar t => width t
  | .bytestr n => n
  | .numarr t n => n * width t

/-- Byte footprint of a field on the wire. -/
def Field.size (f : Field) : Nat := kindSize f.kind

/-- Total payload width of a wire-order format. -/
def formatSize (fs : List Field) : Nat := (fs.map Field.size).sum

/-- A decoded field value: a numeric scalar, a raw byte string (for `Ns`
fields) or a numeric array. -/
inductive FieldVal
  | num (v : Int)
  | bytes (s : List Nat)
  | arr (vs : List Int)
deriving DecidableEq, Repr

instance : Inhabited FieldVal := ⟨.num 0⟩

/-- Little-endian byte image of a natural number, `w` bytes. -/
def toLE : Nat → Nat → List Nat
  | 0, _ => []
  | w + 1, n => n % 256 :: toLE w (n / 256)

/-- Value of a little-endian byte sequence. -/
def fromLE : List Nat → Nat
  | [] => 0
  | b :: bs => b + 256 * fromLE bs

/-- Modelled from the spec: `jspack.Pack` of one numeric scalar — the
value reduced mod `2^(8w)` (two's complement image for signed types) and
emitted as `w` little-endian bytes. -/
def packScalar (t : FieldType) (v : Int) : List Nat :=
  toLE (width t) ((v.emod ((2 : Int) ^ (8 * width t))).toNat)

/-- Modelled from the spec: `jspack.Unpack` of one numeric scalar — read
`w` little-endian bytes; signed types map the upper half of the range back
below zero. -/
def unpackScalar (t : FieldType) (bs : List Nat) : Int :=
  let n : Int := (fromLE (bs.take (width t)) : Nat)
  if isSigned t then
    (if (2 : Int) ^ (8 * width t - 1) ≤ n then n - (2 : Int) ^ (8 * width t) else n)
  else n

/-- Modelled from the spec: pack one field value into its wire bytes —
scalars via `packScalar`, `Ns` byte strings emitted raw (masked to bytes,
zero-padded to the declared length), numeric arrays element-wise
contiguously. Ill-shaped values occupy their footprint with zeros. -/
def packVal : Kind → FieldVal → List Nat
  | .scalar t, .num v => packScalar t v
  | .bytestr n, .bytes s => (s.take n).map (· % 256) ++ List.replicate (n - s.length) 0
  | .numarr t n, .arr vs =>
      ((vs.take n).map (packScalar t)).flatten ++ List.replicate ((n - vs.length) * width t) 0
  | k, _ => List.replicate (kindSize k) 0

/-- Modelled from the spec: read `n` contiguous scalars of type `t`. -/
def unpackNums : Nat → FieldType → List Nat → List Int
  | 0, _, _ => []
  | k + 1, t, bs => unpackScalar t bs :: unpackNums k t (bs.drop (width t))

/-- Modelled from the spec: unpack one field value off the front of a byte
sequence. -/
def unpackVal : Kind → List Nat → FieldVal
  | .scalar t, bs => .num (unpackScalar t bs)
  | .bytestr n, bs => .bytes (bs.take n)
  | .numarr t n, bs => .arr (unpackNums n t bs)

/-- Modelled from the spec: pack a wire-order value list against a
wire-order field list, concatenating the per-field encodings. -/
def packFields : List Field → List FieldVal → List Nat
  | f :: fs, v :: vs => packVal f.kind v ++ packFields fs vs
  | _, _ => []

/-- Modelled from the spec: unpack each wire-order field off the front of
the byte sequence in turn. -/
def unpackFields : List Field → List Nat → List FieldVal
  | [], _ => []
  | f :: fs, bs => unpackVal f.kind bs :: unpackFields fs (bs.drop f.size)

/-- Modelled from the spec: `jspack.Unpack` over a whole format — fails
when the buffer is shorter than the format's byte size, otherwise reads
the format off the front and ignores any trailing bytes. -/
def unpackFormat (fs : List Field) (bs : List Nat) : Option (List FieldVal) :=
  if bs.length < formatSize fs then none else some (unpackFields fs bs)

/-- In-range predicate for a numeric scalar of type `t`: the value a
packed byte image decodes back to itself. -/
def inRange (t : FieldType) (v : Int) : Bool :=
  if isSigned t then
    decide (-((2 : Int) ^ (8 * width t - 1)) ≤ v) && decide (v < (2 : Int) ^ (8 * width t - 1))
  else
    decide (0 ≤ v) && decide (v < (2 : Int) ^ (8 * width t))

/-- A valid assignment of one field: the value's shape matches the field's
wire shape, array/byte-string lengths equal the declared length, and every
numeric component is in range. -/
def validVal (k : Kind) (v : FieldVal) : Bool :=
  match k, v with
  | .scalar t, .num n => inRange t n
  | .bytestr n, .bytes s => s.length == n && s.all (· < 256)
  | .numarr t n, .arr vs => vs.length == n && vs.all (inRange t)
  | _, _ => false

/-- The X25 checksum step of `mavlink.x25Crc`, one byte folded into the
running CRC. -/
def x25Step (crc e : Nat) : Nat :=
  let tmp := e ^^^ (crc &&& 0xff)
  let tmp := (tmp ^^^ (tmp <<< 4)) &&& 0xff
  ((crc >>> 8) ^^^ (tmp <<< 8) ^^^ (tmp <<< 3) ^^^ (tmp >>> 4)) &&& 0xffff

/-- The accumulation loop of `mavlink.x25Crc`, starting from a given seed
(no defaulting). -/
def x25Core (bytes : List Nat) (seed : Nat) : Nat :=
  bytes.foldl x25Step seed

/-- `mavlink.x25Crc(buffer, crc)`: the seed argument passes through the
falsy-default `crc = crc || 0xffff`, so an absent seed and a zero seed
both start from `0xffff`; then the X25 loop runs. A call without the
second argument is `x25Crc buffer 0`. -/
def x25Crc (buffer : List Nat) (crc : Nat) : Nat :=
  x25Core buffer (if crc = 0 then 0xffff else crc)

/-- `mavlink.header.prototype.pack`: `jspack.Pack('BBBBBB', [marker, mlen,
seq, srcSystem, srcComponent, msgId])`, each `B` masked to a byte. The
marker is the generation-time `${PROTOCOL_MARKER}` constant of the
dialect. -/
def headerPack (marker mlen seq srcSystem srcComponent msgId : Nat) : List Nat :=
  [marker % 256, mlen % 256, seq % 256, srcSystem % 256, srcComponent % 256, msgId % 256]

/-- `mavlink.message.prototype.pack(mav, crc_extra, payload)`: header with
the payload length, then the payload, then the X25 CRC of everything after
the marker continued over the one-byte `crc_extra`, appended little-endian. -/
def messagePackRaw (marker id crc_extra : Nat) (payload : List Nat)
    (seq srcSystem srcComponent : Nat) : List Nat :=
  let msgbuf := headerPack marker payload.length seq srcSystem srcComponent id ++ payload
  let crc := x25Crc (msgbuf.drop 1) 0
  let crc := x25Crc [crc_extra] crc
  msgbuf ++ toLE 2 crc

/-- One message schema as the generator consumes it: numeric id, one-byte
CRC seed, the declaration-order field list and the wire-order field list
(`m.fields` / `m.ordered_fields` in `generate`). -/
structure Schema where
  id : Nat
  crc_extra : Nat
  fields : List Field
  ordered_fields : List Field
deriving DecidableEq, Repr

/-- Declaration-order field names (`m.fieldnames`). -/
def Schema.fieldNames (s : Schema) : List Nat := s.fields.map Field.name

/-- Wire-order field names (`m.ordered_fieldnames`). -/
def Schema.orderedNames (s : Schema) : List Nat := s.ordered_fields.map Field.name

/-- The generator's `order_map` construction:
`order_map[i] = ordered_fieldnames.index(fieldnames[i])`. -/
def Schema.orderMap (s : Schema) : List Nat :=
  s.fieldNames.map fun n => s.orderedNames.indexOf n

/-- One entry of the generated `mavlink.map` registry: wire format,
order map and `crc_extra` for a message id. -/
structure MsgDef where
  format : List Field
  order_map : List Nat
  crc_extra : Nat
deriving Repr

/-- The `mavlink.map` registry row generated for a schema. -/
def Schema.toMsgDef (s : Schema) : MsgDef :=
  ⟨s.ordered_fields, s.orderMap, s.crc_extra⟩

/-- The wire-order argument list of the generated per-message `pack`
(`[this.f_ordered_1, ..., this.f_ordered_k]`): each wire slot reads the
declared value of the field with that name. -/
def orderedVals (s : Schema) (vals : List FieldVal) : List FieldVal :=
  s.ordered_fields.map fun f => vals.getD (s.fieldNames.indexOf f.name) (.num 0)

/-- The generated `mavlink.messages.<name>.prototype.pack(mav)`: pack the
wire-order values with the message format, then frame them with
`mavlink.message.prototype.pack`. -/
def schemaPack (marker : Nat) (s : Schema) (vals : List FieldVal)
    (seq srcSystem srcComponent : Nat) : List Nat :=
  messagePackRaw marker s.id s.crc_extra
    (packFields s.ordered_fields (orderedVals s vals)) seq srcSystem srcComponent

/-- The header record attached to a decoded message
(`new mavlink.header(msgId, mlen, seq, srcSystem, srcComponent)`). -/
structure MavHeader where
  msgId : Nat
  mlen : Nat
  seq : Nat
  srcSystem : Nat
  srcComponent : Nat
deriving DecidableEq, Repr

/-- A successfully decoded message: declaration-order field values plus
the provenance attached at the end of `MAVLink.prototype.decode`
(`m.msgbuf`, `m.payload`, `m.crc`, `m.header`). -/
structure DecodedMsg where
  fields : List FieldVal
  msgbuf : List Nat
  payload : List Nat
  crc : Nat
  header : MavHeader
deriving DecidableEq, Repr

/-- The distinct failure classes thrown by `MAVLink.prototype.decode`, in
source order, each carrying the diagnostic values its message interpolates. -/
inductive DecodeErr
  | headerUnpack
  | badMagic (b : Nat)
  | lengthMismatch (got expected : Int)
  | unknownMsgId (id : Nat)
  | crcUnpack
  | crcMismatch (received calculated : Nat)
  | payloadUnpack
deriving DecidableEq, Repr

/-- Tags naming the seven failure classes of `decode`, used to state which
validation fired without the diagnostic payloads. -/
inductive ETag
  | headerUnpack | badMagic | lengthMismatch | unknownMsgId
  | crcUnpack | crcMismatch | payloadUnpack
deriving DecidableEq, Repr

/-- Failure class of a decode error. -/
def DecodeErr.tag : DecodeErr → ETag
  | .headerUnpack => .headerUnpack
  | .badMagic _ => .badMagic
  | .lengthMismatch _ _ => .lengthMismatch
  | .unknownMsgId _ => .unknownMsgId
  | .crcUnpack => .crcUnpack
  | .crcMismatch _ _ => .crcMismatch
  | .payloadUnpack => .payloadUnpack

/-- Failure class of a decode result, `none` on success. -/
def decodeTag (r : Except DecodeErr DecodedMsg) : Option ETag :=
  match r with
  | .error e => some e.tag
  | .ok _ => none

/-- The transmitted checksum read back by `decode`: `jspack.Unpack('<H')`
of the last two frame bytes. -/
def receivedCrc (msgbuf : List Nat) : Nat :=
  (msgbuf.drop (msgbuf.length - 2)).getD 0 0
    + 256 * (msgbuf.drop (msgbuf.length - 2)).getD 1 0

/-- The checksum `decode` recomputes: X25 over `msgbuf.slice(1, length-2)`
continued over the registry row's `crc_extra`. -/
def computedCrc (decoder : MsgDef) (msgbuf : List Nat) : Nat :=
  x25Crc [decoder.crc_extra] (x25Crc ((msgbuf.drop 1).take (msgbuf.length - 3)) 0)

/-- The field-reorder loop of `decode`
(`_.each(t, function(e, i, l) { args[i] = t[decoder.order_map[i]] })`);
an out-of-range order-map read is modelled by the out-of-range default of
`getD`. -/
def reorderFields (decoder : MsgDef) (t : List FieldVal) : List FieldVal :=
  (List.range t.length).map fun i => t.getD (decoder.order_map.getD i t.length) (.num 0)

/-- `MAVLink.prototype.decode(msgbuf)`, validations in source order:
header unpack (`jspack.Unpack('cBBBBB', ...)` fails on fewer than six
bytes), the hardcoded `254` magic check, the payload-length check
(JavaScript `msgbuf.length - 8` can be negative, hence the integer
subtraction), registry lookup, CRC trailer unpack (`'<H'` on the last two
bytes), CRC comparison (recomputed over `msgbuf.slice(1, length-2)`
continued over the registry's `crc_extra`), and the payload unpack over
`msgbuf.slice(6, msgbuf.length)` — the trailing CRC bytes included, as in
the source. On success the fields are reordered through the order map
(`args[i] = t[order_map[i]]`; an out-of-range index is modelled by the
out-of-range default of `getD`) and the provenance is attached, with
`m.payload = msgbuf.slice(6)`. -/
def decode (map : Nat → Option MsgDef) (msgbuf : List Nat) :
    Except DecodeErr DecodedMsg :=
  if msgbuf.length < 6 then .error .headerUnpack
  else
    let magic := msgbuf.getD 0 0
    let mlen := msgbuf.getD 1 0
    let seq := msgbuf.getD 2 0
    let srcSystem := msgbuf.getD 3 0
    let srcComponent := msgbuf.getD 4 0
    let msgId := msgbuf.getD 5 0
    if magic ≠ 254 then .error (.badMagic magic)
    else if (mlen : Int) ≠ (msgbuf.length : Int) - 8 then
      .error (.lengthMismatch ((msgbuf.length : Int) - 8) (mlen : Int))
    else
      match map msgId with
      | none => .error (.unknownMsgId msgId)
      | some decoder =>
        let trailer := msgbuf.drop (msgbuf.length - 2)
        if trailer.length < 2 then .error .crcUnpack
        else
          let receivedChecksum := receivedCrc msgbuf
          let messageChecksum := computedCrc decoder msgbuf
          if receivedChecksum ≠ messageChecksum then
            .error (.crcMismatch receivedChecksum messageChecksum)
          else
            match unpackFormat decoder.format (msgbuf.drop 6) with
            | none => .error .payloadUnpack
            | some t =>
              .ok { fields := reorderFields decoder t
                    msgbuf := msgbuf
                    payload := msgbuf.drop 6
                    crc := receivedChecksum
                    header := ⟨msgId, mlen, seq, srcSystem, srcComponent⟩ }

/-- Errors thrown inside `parseChar`: the resync "Bad prefix" error of
`parsePrefix`, or a decode failure rethrown by `parsePayload`. -/
inductive MavErr
  | badMagicByte (b : Nat)
  | decodeErr (e : DecodeErr)
deriving DecidableEq, Repr

/-- A result yielded by the reassembler: a decoded message, or the
`mavlink.messages.bad_data` sentinel carrying the offending bytes and the
error that produced them. -/
inductive Msg
  | decoded (m : DecodedMsg)
  | badData (data : List Nat) (reason : MavErr)
deriving DecidableEq, Repr

/-- Whether a reassembler result is a `bad_data` sentinel caused by the
`LengthMismatchError` branch of `decode`. -/
def isLengthMismatchResult : Option Msg → Bool
  | some (.badData _ (.decodeErr (.lengthMismatch _ _))) => true
  | _ => false

/-- The `MAVLink` connection state: accumulation buffer, error buffer,
expected length, outgoing sequence counter, sender identifiers and the
traffic counters. -/
structure MState where
  seq : Nat
  buf : List Nat
  bufInError : List Nat
  expected_length : Nat
  srcSystem : Nat
  srcComponent : Nat
  total_packets_sent : Nat
  total_bytes_sent : Nat
  total_packets_received : Nat
  total_bytes_received : Nat
  total_receive_errors : Nat
deriving DecidableEq, Repr

/-- The `MAVLink(logger, srcSystem, srcComponent)` constructor: sequence
zero, empty buffers, `expected_length = 6`, all counters zero. -/
def initialState (srcSystem srcComponent : Nat) : MState :=
  { seq := 0, buf := [], bufInError := [], expected_length := 6
    srcSystem := srcSystem, srcComponent := srcComponent
    total_packets_sent := 0, total_bytes_sent := 0
    total_packets_received := 0, total_bytes_received := 0
    total_receive_errors := 0 }

/-- `MAVLink.prototype.pushBuffer(data)`: append the chunk and count its
bytes; with no argument (the bare `parseChar()` calls) nothing happens. -/
def pushBuffer (c : Option (List Nat)) (st : MState) : MState :=
  match c with
  | none => st
  | some d => { st with buf := st.buf ++ d
                        total_bytes_received := st.total_bytes_received + d.length }

/-- `MAVLink.prototype.parsePrefix`: when the buffer is non-empty and its
first byte is not the hardcoded `254`, strip that one byte into
`bufInError`, reset `expected_length` to 6 and throw the bad-prefix error. -/
def parsePrefixStep (st : MState) : MState × Option MavErr :=
  if 1 ≤ st.buf.length ∧ st.buf.getD 0 0 ≠ 254 then
    ({ st with bufInError := st.buf.take 1, buf := st.buf.drop 1, expected_length := 6 },
     some (.badMagicByte (st.buf.getD 0 0)))
  else (st, none)

/-- `MAVLink.prototype.parseLength`: with at least two buffered bytes, set
`expected_length` to the length byte plus 8; the buffer is untouched. -/
def parseLength (st : MState) : MState :=
  if 2 ≤ st.buf.length then { st with expected_length := st.buf.getD 1 0 + 8 } else st

/-- `MAVLink.prototype.parsePayload`: once `expected_length` is at least 8
and that many bytes are buffered, slice exactly `expected_length` bytes
off the front, reset the expectation to 6 and decode the slice; a decode
failure stores the candidate in `bufInError` and rethrows, a success
counts a received packet. -/
def parsePayload (map : Nat → Option MsgDef) (st : MState) :
    MState × Except MavErr (Option DecodedMsg) :=
  if 8 ≤ st.expected_length ∧ st.expected_length ≤ st.buf.length then
    let mbuf := st.buf.take st.expected_length
    let st1 := { st with buf := st.buf.drop st.expected_length, expected_length := 6 }
    match decode map mbuf with
    | .ok m =>
        ({ st1 with total_packets_received := st1.total_packets_received + 1 },
         .ok (some m))
    | .error e => ({ st1 with bufInError := mbuf }, .error (.decodeErr e))
  else (st, .ok none)

/-- `MAVLink.prototype.parseChar(c)`: push the chunk, then prefix, length
and payload stages; any thrown error is caught, counted in
`total_receive_errors` and converted into a `bad_data` sentinel carrying
`bufInError`, which is then cleared. -/
def parseChar (map : Nat → Option MsgDef) (c : Option (List Nat)) (st : MState) :
    MState × Option Msg :=
  let st1 := pushBuffer c st
  match parsePrefixStep st1 with
  | (st2, some err) =>
      ({ st2 with total_receive_errors := st2.total_receive_errors + 1, bufInError := [] },
       some (.badData st2.bufInError err))
  | (st2, none) =>
      let st3 := parseLength st2
      match parsePayload map st3 with
      | (st4, .ok (some m)) => (st4, some (.decoded m))
      | (st4, .ok none) => (st4, none)
      | (st4, .error e) =>
          ({ st4 with total_receive_errors := st4.total_receive_errors + 1, bufInError := [] },
           some (.badData st4.bufInError e))

/-- The `while(true)` loop of `MAVLink.prototype.parseBuffer`: keep
calling `parseChar()` with no argument, collecting messages, until it
returns null. The loop is given as a fuelled recursion; every yielded
message consumes at least one buffered byte (`parseChar_progress`), so
any fuel beyond the buffered byte count reaches the null-result fixpoint
and the fuel never matters (`loopFuel_eq`, `loopRun_unfold`). -/
def loopFuel (map : Nat → Option MsgDef) : Nat → MState → MState × List Msg
  | 0, st => (st, [])
  | fuel + 1, st =>
      match parseChar map none st with
      | (st2, none) => (st2, [])
      | (st2, some m) =>
          let r := loopFuel map fuel st2
          (r.1, m :: r.2)

/-- The drain loop run with sufficient fuel: one unit per buffered byte
plus one for the final null step. -/
def loopRun (map : Nat → Option MsgDef) (st : MState) : MState × List Msg :=
  loopFuel map (st.buf.length + 1) st

/-- `MAVLink.prototype.parseBuffer(s)`: one `parseChar(s)` call; if it
yields nothing the result is null (modelled as the empty message list),
otherwise the drain loop collects every further message. -/
def parseBuffer (map : Nat → Option MsgDef) (data : List Nat) (st : MState) :
    MState × List Msg :=
  match parseChar map (some data) st with
  | (st1, none) => (st1, [])
  | (st1, some m) =>
      let r := loopRun map st1
      (r.1, m :: r.2)

/-- Feed a list of chunks through `parseBuffer` one call per chunk,
concatenating the yielded messages in order. -/
def pushChunks (map : Nat → Option MsgDef) (chunks : List (List Nat)) (st : MState) :
    MState × List Msg :=
  match chunks with
  | [] => (st, [])
  | c :: cs =>
      let r1 := parseBuffer map c st
      let r2 := pushChunks map cs r1.1
      (r2.1, r1.2 ++ r2.2)

/-- `MAVLink.prototype.send(mavmsg)`: pack the message with the current
sequence number and sender identifiers, hand the bytes to the transport
(modelled as the returned byte list), then advance the sequence counter
mod 256 and the sent counters. -/
def send (s : Schema) (vals : List FieldVal) (st : MState) : MState × List Nat :=
  let buf := schemaPack 254 s vals st.seq st.srcSystem st.srcComponent
  ({ st with seq := (st.seq + 1) % 256
             total_packets_sent := st.total_packets_sent + 1
             total_bytes_sent := st.total_bytes_sent + buf.length },
   buf)

/-- The HEARTBEAT schema of the common dialect: declaration order
`type, autopilot, base_mode, custom_mode, system_status, mavlink_version`
(field names abstracted to 0..5), wire order with the `uint32_t`
`custom_mode` first, payload width 9, `crc_extra = 50`. -/
def heartbeat : Schema :=
  { id := 0
    crc_extra := 50
    fields := [⟨0, .u8, 0⟩, ⟨1, .u8, 0⟩, ⟨2, .u8, 0⟩, ⟨3, .u32, 0⟩, ⟨4, .u8, 0⟩, ⟨5, .u8, 0⟩]
    ordered_fields := [⟨3, .u32, 0⟩, ⟨0, .u8, 0⟩, ⟨1, .u8, 0⟩, ⟨2, .u8, 0⟩, ⟨4, .u8, 0⟩, ⟨5, .u8, 0⟩] }

/-- A registry holding exactly the HEARTBEAT message at id 0. -/
def hbMap : Nat → Option MsgDef := fun i => if i = 0 then some heartbeat.toMsgDef else none

/-- The all-zero HEARTBEAT field assignment. -/
def hbZeroVals : List FieldVal := List.replicate 6 (.num 0)

/-- The wire frame of the all-zero HEARTBEAT packed with
`sysid = 1, compid = 1, seq = 0`: marker, header, nine zero payload bytes
and the little-endian CRC `0x4843`. -/
def hbZeroFrame : List Nat := [254, 9, 0, 1, 1, 0] ++ List.replicate 9 0 ++ [67, 72]

/-- What `decode` yields on `hbZeroFrame`. -/
def hbZeroDecoded : DecodedMsg :=
  { fields := hbZeroVals
    msgbuf := hbZeroFrame
    payload := List.replicate 9 0 ++ [67, 72]
    crc := 18499
    header := ⟨0, 9, 0, 1, 1⟩ }


/-- A throwing `parsePrefixStep` strips exactly one byte. -/
theorem parsePrefixStep_some {st st2 : MState} {e : MavErr}
    (h : parsePrefixStep st = (st2, some e)) : st2.buf.length + 1 = st.buf.length := by
  unfold parsePrefixStep at h
  split at h
  · rename_i hc
    rw [Prod.mk.injEq] at h
    obtain ⟨rfl, -⟩ := h
    show (st.buf.drop 1).length + 1 = st.buf.length
    rw [List.length_drop]
    omega
  · rw [Prod.mk.injEq] at h
    exact absurd h.2 (by simp)

/-- A silent `parsePrefixStep` leaves the state unchanged. -/
theorem parsePrefixStep_none {st st2 : MState}
    (h : parsePrefixStep st = (st2, none)) : st2 = st := by
  unfold parsePrefixStep at h
  split at h
  · rw [Prod.mk.injEq] at h
    exact absurd h.2 (by simp)
  · rw [Prod.mk.injEq] at h
    exact h.1.symm

/-- `parseLength` only rewrites `expected_length`. -/
theorem parseLength_buf (st : MState) : (parseLength st).buf = st.buf := by
  unfold parseLength; split <;> rfl

/-- `parsePayload` either does nothing (no full candidate frame buffered)
or consumes a frame, strictly shrinking the buffer. -/
theorem parsePayload_cases (map : Nat → Option MsgDef) {st st2 : MState}
    {r : Except MavErr (Option DecodedMsg)} (h : parsePayload map st = (st2, r)) :
    (st2 = st ∧ r = .ok none) ∨ st2.buf.length < st.buf.length := by
  unfold parsePayload at h
  split at h
  · rename_i hguard
    right
    dsimp only [] at h
    split at h <;>
    · rw [Prod.mk.injEq] at h
      obtain ⟨rfl, -⟩ := h
      show (st.buf.drop st.expected_length).length < st.buf.length
      rw [List.length_drop]
      omega
  · rw [Prod.mk.injEq] at h
    exact .inl ⟨h.1.symm, h.2.symm⟩

/-- A message-yielding `parseChar` with no input chunk consumes at least
one buffered byte: the resync path strips one byte, the payload path a
whole frame. -/
theorem parseChar_progress {map : Nat → Option MsgDef} {st st2 : MState} {m : Msg}
    (h : parseChar map none st = (st2, some m)) : st2.buf.length < st.buf.length := by
  unfold parseChar at h
  rw [show pushBuffer none st = st from rfl] at h
  dsimp only [] at h
  cases hp : parsePrefixStep st with
  | mk st2' eo =>
    rw [hp] at h
    cases eo with
    | some err =>
        have hlen := parsePrefixStep_some hp
        dsimp only [] at h
        rw [Prod.mk.injEq] at h
        obtain ⟨rfl, -⟩ := h
        show st2'.buf.length < st.buf.length
        omega
    | none =>
        rw [parsePrefixStep_none hp] at h
        dsimp only [] at h
        cases hq : parsePayload map (parseLength st) with
        | mk st4 r =>
          rw [hq] at h
          have hcase := parsePayload_cases map hq
          rw [parseLength_buf] at hcase
          cases r with
          | ok o =>
              cases o with
              | some m' =>
                  dsimp only [] at h
                  rw [Prod.mk.injEq] at h
                  obtain ⟨rfl, -⟩ := h
                  rcases hcase with ⟨-, hr⟩ | hlt
                  · cases hr
                  · exact hlt
              | none =>
                  dsimp only [] at h
                  rw [Prod.mk.injEq] at h
                  exact absurd h.2 (by simp)
          | error e =>
              dsimp only [] at h
              rw [Prod.mk.injEq] at h
              obtain ⟨rfl, -⟩ := h
              rcases hcase with ⟨-, hr⟩ | hlt
              · cases hr
              · show st4.buf.length < st.buf.length
                exact hlt

/-- Any two sufficient fuels drive the drain loop to the same fixpoint:
each productive step strictly shrinks the buffer, so one unit of fuel per
buffered byte plus one is always enough. -/
theorem loopFuel_eq (map : Nat → Option MsgDef) :
    ∀ fuel fuel' st, st.buf.length < fuel → st.buf.length < fuel' →
      loopFuel map fuel st = loopFuel map fuel' st := by
  intro fuel
  induction fuel with
  | zero => intro fuel' st h h'; omega
  | succ k ih =>
      intro fuel' st h h'
      cases fuel' with
      | zero => omega
      | succ k' =>
          show loopFuel map (k + 1) st = loopFuel map (k' + 1) st
          unfold loopFuel
          cases hc : parseChar map none st with
          | mk st2 o =>
              cases o with
              | none => rfl
              | some m =>
                  have hprog := parseChar_progress hc
                  dsimp only []
                  rw [ih k' st2 (by omega) (by omega)]

/-- The drain loop satisfies the recursion of the source's `while(true)`
loop: step once with `parseChar()`; stop on null, otherwise collect the
message and keep draining. -/
theorem loopRun_unfold (map : Nat → Option MsgDef) (st : MState) :
    loopRun map st =
      match parseChar map none st with
      | (st2, none) => (st2, [])
      | (st2, some m) =>
          let r := loopRun map st2
          (r.1, m :: r.2) := by
  show loopFuel map (st.buf.length + 1) st = _
  unfold loopFuel
  cases hc : parseChar map none st with
  | mk st2 o =>
      cases o with
      | none => rfl
      | some m =>
          have hprog := parseChar_progress hc
          dsimp only []
          rw [loopFuel_eq map st.buf.length (st2.buf.length + 1) st2 (by omega) (by omega)]
          rfl

/-- Equation for `decode`, stage 1: fewer than six bytes fail the header
unpack. -/
theorem decode_eq_headerUnpack {map : Nat → Option MsgDef} {msgbuf : List Nat}
    (h1 : msgbuf.length < 6) : decode map msgbuf = .error .headerUnpack := by
  unfold decode
  rw [if_pos h1]

/-- Equation for `decode`, stage 2: a first byte other than 254 fails the
magic check. -/
theorem decode_eq_badMagic {map : Nat → Option MsgDef} {msgbuf : List Nat}
    (h1 : ¬ msgbuf.length < 6) (h2 : msgbuf.getD 0 0 ≠ 254) :
    decode map msgbuf = .error (.badMagic (msgbuf.getD 0 0)) := by
  unfold decode
  rw [if_neg h1]
  dsimp only []
  rw [if_pos h2]

/-- Equation for `decode`, stage 3: a length byte disagreeing with
`length - 8` fails the length check. -/
theorem decode_eq_lengthMismatch {map : Nat → Option MsgDef} {msgbuf : List Nat}
    (h1 : ¬ msgbuf.length < 6) (h2 : msgbuf.getD 0 0 = 254)
    (h3 : (msgbuf.getD 1 0 : Int) ≠ (msgbuf.length : Int) - 8) :
    decode map msgbuf =
      .error (.lengthMismatch ((msgbuf.length : Int) - 8) (msgbuf.getD 1 0 : Int)) := by
  unfold decode
  rw [if_neg h1]
  dsimp only []
  rw [if_neg (not_not_intro h2), if_pos h3]

/-- Equation for `decode`, stage 4: an id absent from the registry fails
the lookup. -/
theorem decode_eq_unknown {map : Nat → Option MsgDef} {msgbuf : List Nat}
    (h1 : ¬ msgbuf.length < 6) (h2 : msgbuf.getD 0 0 = 254)
    (h3 : (msgbuf.getD 1 0 : Int) = (msgbuf.length : Int) - 8)
    (h4 : map (msgbuf.getD 5 0) = none) :
    decode map msgbuf = .error (.unknownMsgId (msgbuf.getD 5 0)) := by
  unfold decode
  rw [if_neg h1]
  dsimp only []
  rw [if_neg (not_not_intro h2), if_neg (not_not_intro h3), h4]

/-- Equation for `decode`, stage 5: a trailer of fewer than two bytes
fails the CRC unpack. -/
theorem decode_eq_crcUnpack {map : Nat → Option MsgDef} {msgbuf : List Nat} {dec : MsgDef}
    (h1 : ¬ msgbuf.length < 6) (h2 : msgbuf.getD 0 0 = 254)
    (h3 : (msgbuf.getD 1 0 : Int) = (msgbuf.length : Int) - 8)
    (h4 : map (msgbuf.getD 5 0) = some dec)
    (h5 : (msgbuf.drop (msgbuf.length - 2)).length < 2) :
    decode map msgbuf = .error .crcUnpack := by
  unfold decode
  rw [if_neg h1]
  dsimp only []
  rw [if_neg (not_not_intro h2), if_neg (not_not_intro h3), h4]
  dsimp only []
  rw [if_pos h5]

/-- Equation for `decode`, stage 6: a recomputed CRC that disagrees with
the transmitted one fails the checksum comparison. -/
theorem decode_eq_crcMismatch {map : Nat → Option MsgDef} {msgbuf : List Nat} {dec : MsgDef}
    (h1 : ¬ msgbuf.length < 6) (h2 : msgbuf.getD 0 0 = 254)
    (h3 : (msgbuf.getD 1 0 : Int) = (msgbuf.length : Int) - 8)
    (h4 : map (msgbuf.getD 5 0) = some dec)
    (h5 : ¬ (msgbuf.drop (msgbuf.length - 2)).length < 2)
    (h6 : receivedCrc msgbuf ≠ computedCrc dec msgbuf) :
    decode map msgbuf = .error (.crcMismatch (receivedCrc msgbuf) (computedCrc dec msgbuf)) := by
  unfold decode
  rw [if_neg h1]
  dsimp only []
  rw [if_neg (not_not_intro h2), if_neg (not_not_intro h3), h4]
  dsimp only []
  rw [if_neg h5]
  rw [if_pos h6]

/-- Equation for `decode`, stage 7: a payload shorter than the registry
format fails the payload unpack. -/
theorem decode_eq_payloadUnpack {map : Nat → Option MsgDef} {msgbuf : List Nat} {dec : MsgDef}
    (h1 : ¬ msgbuf.length < 6) (h2 : msgbuf.getD 0 0 = 254)
    (h3 : (msgbuf.getD 1 0 : Int) = (msgbuf.length : Int) - 8)
    (h4 : map (msgbuf.getD 5 0) = some dec)
    (h5 : ¬ (msgbuf.drop (msgbuf.length - 2)).length < 2)
    (h6 : receivedCrc msgbuf = computedCrc dec msgbuf)
    (h7 : unpackFormat dec.format (msgbuf.drop 6) = none) :
    decode map msgbuf = .error .payloadUnpack := by
  unfold decode
  rw [if_neg h1]
  dsimp only []
  rw [if_neg (not_not_intro h2), if_neg (not_not_intro h3), h4]
  dsimp only []
  rw [if_neg h5]
  rw [if_neg (not_not_intro h6), h7]

/-- Equation for `decode`, success: when all seven validations pass, the
decoded message is the reordered field list with the provenance fields of
the source (`m.msgbuf`, `m.payload = msgbuf.slice(6)`, `m.crc`,
`m.header`). -/
theorem decode_eq_ok {map : Nat → Option MsgDef} {msgbuf : List Nat} {dec : MsgDef}
    {t : List FieldVal}
    (h1 : ¬ msgbuf.length < 6) (h2 : msgbuf.getD 0 0 = 254)
    (h3 : (msgbuf.getD 1 0 : Int) = (msgbuf.length : Int) - 8)
    (h4 : map (msgbuf.getD 5 0) = some dec)
    (h5 : ¬ (msgbuf.drop (msgbuf.length - 2)).length < 2)
    (h6 : receivedCrc msgbuf = computedCrc dec msgbuf)
    (h7 : unpackFormat dec.format (msgbuf.drop 6) = some t) :
    decode map msgbuf =
      .ok { fields := reorderFields dec t
            msgbuf := msgbuf
            payload := msgbuf.drop 6
            crc := receivedCrc msgbuf
            header := ⟨msgbuf.getD 5 0, msgbuf.getD 1 0, msgbuf.getD 2 0,
                       msgbuf.getD 3 0, msgbuf.getD 4 0⟩ } := by
  unfold decode
  rw [if_neg h1]
  dsimp only []
  rw [if_neg (not_not_intro h2), if_neg (not_not_intro h3), h4]
  dsimp only []
  rw [if_neg h5]
  rw [if_neg (not_not_intro h6), h7]

/-- Exhaustive case analysis of `decode`: exactly one of the seven
validations fails — the first one whose condition holds — or all pass and
the decoded message is produced. -/
theorem decode_shape (map : Nat → Option MsgDef) (msgbuf : List Nat) :
    (msgbuf.length < 6 ∧ decode map msgbuf = .error .headerUnpack) ∨
    (¬ msgbuf.length < 6 ∧ msgbuf.getD 0 0 ≠ 254 ∧
      decode map msgbuf = .error (.badMagic (msgbuf.getD 0 0))) ∨
    (¬ msgbuf.length < 6 ∧ msgbuf.getD 0 0 = 254 ∧
      (msgbuf.getD 1 0 : Int) ≠ (msgbuf.length : Int) - 8 ∧
      decode map msgbuf =
        .error (.lengthMismatch ((msgbuf.length : Int) - 8) (msgbuf.getD 1 0 : Int))) ∨
    (¬ msgbuf.length < 6 ∧ msgbuf.getD 0 0 = 254 ∧
      (msgbuf.getD 1 0 : Int) = (msgbuf.length : Int) - 8 ∧
      map (msgbuf.getD 5 0) = none ∧
      decode map msgbuf = .error (.unknownMsgId (msgbuf.getD 5 0))) ∨
    (∃ dec, ¬ msgbuf.length < 6 ∧ msgbuf.getD 0 0 = 254 ∧
      (msgbuf.getD 1 0 : Int) = (msgbuf.length : Int) - 8 ∧
      map (msgbuf.getD 5 0) = some dec ∧
      (msgbuf.drop (msgbuf.length - 2)).length < 2 ∧
      decode map msgbuf = .error .crcUnpack) ∨
    (∃ dec, ¬ msgbuf.length < 6 ∧ msgbuf.getD 0 0 = 254 ∧
      (msgbuf.getD 1 0 : Int) = (msgbuf.length : Int) - 8 ∧
      map (msgbuf.getD 5 0) = some dec ∧
      ¬ (msgbuf.drop (msgbuf.length - 2)).length < 2 ∧
      receivedCrc msgbuf ≠ computedCrc dec msgbuf ∧
      decode map msgbuf =
        .error (.crcMismatch (receivedCrc msgbuf) (computedCrc dec msgbuf))) ∨
    (∃ dec, ¬ msgbuf.length < 6 ∧ msgbuf.getD 0 0 = 254 ∧
      (msgbuf.getD 1 0 : Int) = (msgbuf.length : Int) - 8 ∧
      map (msgbuf.getD 5 0) = some dec ∧
      ¬ (msgbuf.drop (msgbuf.length - 2)).length < 2 ∧
      receivedCrc msgbuf = computedCrc dec msgbuf ∧
      unpackFormat dec.format (msgbuf.drop 6) = none ∧
      decode map msgbuf = .error .payloadUnpack) ∨
    (∃ dec t, ¬ msgbuf.length < 6 ∧ msgbuf.getD 0 0 = 254 ∧
      (msgbuf.getD 1 0 : Int) = (msgbuf.length : Int) - 8 ∧
      map (msgbuf.getD 5 0) = some dec ∧
      ¬ (msgbuf.drop (msgbuf.length - 2)).length < 2 ∧
      receivedCrc msgbuf = computedCrc dec msgbuf ∧
      unpackFormat dec.format (msgbuf.drop 6) = some t ∧
      decode map msgbuf =
        .ok { fields := reorderFields dec t
              msgbuf := msgbuf
              payload := msgbuf.drop 6
              crc := receivedCrc msgbuf
              header := ⟨msgbuf.getD 5 0, msgbuf.getD 1 0, msgbuf.getD 2 0,
                         msgbuf.getD 3 0, msgbuf.getD 4 0⟩ }) := by
  by_cases h1 : msgbuf.length < 6
  · exact .inl ⟨h1, decode_eq_headerUnpack h1⟩
  by_cases h2 : msgbuf.getD 0 0 = 254
  case neg => exact .inr (.inl ⟨h1, h2, decode_eq_badMagic h1 h2⟩)
  by_cases h3 : (msgbuf.getD 1 0 : Int) = (msgbuf.length : Int) - 8
  case neg => exact .inr (.inr (.inl ⟨h1, h2, h3, decode_eq_lengthMismatch h1 h2 h3⟩))
  cases h4 : map (msgbuf.getD 5 0) with
  | none => exact .inr (.inr (.inr (.inl ⟨h1, h2, h3, rfl, decode_eq_unknown h1 h2 h3 h4⟩)))
  | some dec =>
    by_cases h5 : (msgbuf.drop (msgbuf.length - 2)).length < 2
    · exact .inr (.inr (.inr (.inr (.inl
        ⟨dec, h1, h2, h3, rfl, h5, decode_eq_crcUnpack h1 h2 h3 h4 h5⟩))))
    by_cases h6 : receivedCrc msgbuf = computedCrc dec msgbuf
    case neg =>
      exact .inr (.inr (.inr (.inr (.inr (.inl
        ⟨dec, h1, h2, h3, rfl, h5, h6, decode_eq_crcMismatch h1 h2 h3 h4 h5 h6⟩)))))
    cases h7 : unpackFormat dec.format (msgbuf.drop 6) with
    | none =>
        exact .inr (.inr (.inr (.inr (.inr (.inr (.inl
          ⟨dec, h1, h2, h3, rfl, h5, h6, h7, decode_eq_payloadUnpack h1 h2 h3 h4 h5 h6 h7⟩))))))
    | some t =>
        exact .inr (.inr (.inr (.inr (.inr (.inr (.inr
          ⟨dec, t, h1, h2, h3, rfl, h5, h6, h7, decode_eq_ok h1 h2 h3 h4 h5 h6 h7⟩))))))

/-- Every primitive type occupies at least one byte. -/
theorem width_pos (t : FieldType) : 1 ≤ width t := by cases t <;> simp [width]

/-- A little-endian image has exactly its declared width. -/
theorem toLE_length (w n : Nat) : (toLE w n).length = w := by
  induction w generalizing n with
  | zero => rfl
  | succ k ih => simp [toLE, ih]

/-- Reading back a little-endian image recovers the value when it fits. -/
theorem fromLE_toLE (w n : Nat) (h : n < 256 ^ w) : fromLE (toLE w n) = n := by
  induction w generalizing n with
  | zero =>
      simp only [toLE, fromLE]
      simp only [pow_zero] at h
      omega
  | succ k ih =>
      simp only [toLE, fromLE]
      rw [ih (n / 256) (by
        refine Nat.div_lt_of_lt_mul ?_
        rw [pow_succ] at h
        omega)]
      omega

/-- Powers of 256 are the byte-width powers of two. -/
theorem pow256 (w : Nat) : (256 : Nat) ^ w = 2 ^ (8 * w) := by
  rw [show (256 : Nat) = 2 ^ 8 from rfl, ← pow_mul]

/-- A packed scalar occupies exactly the type's width. -/
theorem packScalar_length (t : FieldType) (v : Int) :
    (packScalar t v).length = width t := toLE_length _ _

/-- Unpacking a packed in-range scalar recovers the value, regardless of
trailing bytes. -/
theorem unpackScalar_packScalar (t : FieldType) (v : Int) (extra : List Nat)
    (h : inRange t v = true) : unpackScalar t (packScalar t v ++ extra) = v := by
  have hw := width_pos t
  have hcast : ((2 : Int) ^ (8 * width t)) = ((2 ^ (8 * width t) : Nat) : Int) := by
    push_cast
    rfl
  have hb0 : (0 : Int) < (2 : Int) ^ (8 * width t) := by positivity
  have hmnn : 0 ≤ v.emod ((2 : Int) ^ (8 * width t)) := Int.emod_nonneg v (by omega)
  have hmlt : v.emod ((2 : Int) ^ (8 * width t)) < (2 : Int) ^ (8 * width t) :=
    Int.emod_lt_of_pos v hb0
  have hnat : (v.emod ((2 : Int) ^ (8 * width t))).toNat < 256 ^ width t := by
    rw [pow256]
    rw [hcast] at hmnn hmlt ⊢
    omega
  have hfrom : fromLE ((packScalar t v ++ extra).take (width t))
      = (v.emod ((2 : Int) ^ (8 * width t))).toNat := by
    rw [List.take_left' (packScalar_length t v), packScalar]
    exact fromLE_toLE _ _ hnat
  have hcastback : ((fromLE ((packScalar t v ++ extra).take (width t)) : Nat) : Int)
      = v.emod ((2 : Int) ^ (8 * width t)) := by
    rw [hfrom]
    exact Int.toNat_of_nonneg hmnn
  have hsplit : (2 : Int) ^ (8 * width t) = 2 * (2 : Int) ^ (8 * width t - 1) := by
    set k := 8 * width t - 1 with hk
    have h8 : 8 * width t = k + 1 := by omega
    rw [h8, pow_succ]
    ring
  have hBpos : (0 : Int) < (2 : Int) ^ (8 * width t - 1) := by positivity
  unfold unpackScalar
  rw [hcastback]
  cases hsign : isSigned t with
  | true =>
    simp only [inRange, hsign, if_true, Bool.and_eq_true, decide_eq_true_eq] at h
    obtain ⟨hlo, hhi⟩ := h
    simp only [if_true]
    by_cases hv0 : 0 ≤ v
    · have hemod : v.emod ((2 : Int) ^ (8 * width t)) = v :=
        Int.emod_eq_of_lt hv0 (by omega)
      rw [hemod, if_neg (by omega)]
    · have hemod : v.emod ((2 : Int) ^ (8 * width t))
          = v + (2 : Int) ^ (8 * width t) := by
        have hst : v.emod ((2 : Int) ^ (8 * width t))
            = (v + (2 : Int) ^ (8 * width t)).emod ((2 : Int) ^ (8 * width t)) := by
          have hm := Int.add_mul_emod_self_left v ((2 : Int) ^ (8 * width t)) 1
          simp only [mul_one] at hm
          exact hm.symm
        rw [hst]
        exact Int.emod_eq_of_lt (by omega) (by omega)
      rw [hemod, if_pos (by omega)]
      ring
  | false =>
    simp only [inRange, hsign, if_false, Bool.and_eq_true, decide_eq_true_eq,
      Bool.false_eq_true] at h
    obtain ⟨hlo, hhi⟩ := h
    simp only [Bool.false_eq_true, if_false]
    exact Int.emod_eq_of_lt hlo hhi

/-- Total width of contiguously packed scalars. -/
theorem packScalars_length (t : FieldType) (vs : List Int) :
    ((vs.map (packScalar t)).flatten).length = vs.length * width t := by
  induction vs with
  | nil => simp
  | cons x xs ih =>
      simp only [List.map_cons, List.flatten_cons, List.length_append,
        packScalar_length, List.length_cons, ih]
      ring

/-- A validly assigned field value packs to exactly its wire footprint. -/
theorem packVal_length {k : Kind} {v : FieldVal} (h : validVal k v = true) :
    (packVal k v).length = kindSize k := by
  cases k with
  | scalar t =>
      cases v with
      | num n => exact packScalar_length t n
      | bytes s => simp [validVal] at h
      | arr vs => simp [validVal] at h
  | bytestr n =>
      cases v with
      | num m => simp [validVal] at h
      | bytes s =>
          simp only [validVal, Bool.and_eq_true, beq_iff_eq] at h
          obtain ⟨hlen, -⟩ := h
          subst hlen
          simp [packVal, kindSize]
      | arr vs => simp [validVal] at h
  | numarr t n =>
      cases v with
      | num m => simp [validVal] at h
      | bytes s => simp [validVal] at h
      | arr vs =>
          simp only [validVal, Bool.and_eq_true, beq_iff_eq] at h
          obtain ⟨hlen, -⟩ := h
          subst hlen
          simp only [packVal, List.take_length, Nat.sub_self, Nat.zero_mul,
            List.replicate_zero, List.append_nil, kindSize]
          exact packScalars_length t vs

/-- Reading `n` packed in-range scalars back recovers them, regardless of
trailing bytes. -/
theorem unpackNums_pack (t : FieldType) (vs : List Int) (extra : List Nat)
    (h : ∀ x ∈ vs, inRange t x = true) :
    unpackNums vs.length t ((vs.map (packScalar t)).flatten ++ extra) = vs := by
  induction vs generalizing extra with
  | nil => rfl
  | cons x xs ih =>
      simp only [List.map_cons, List.flatten_cons, List.length_cons, unpackNums,
        List.append_assoc]
      rw [unpackScalar_packScalar t x _ (h x (by simp))]
      rw [List.drop_left' (packScalar_length t x)]
      rw [ih _ fun y hy => h y (by simp [hy])]

/-- Unpacking a validly assigned packed field value recovers it,
regardless of trailing bytes. -/
theorem unpackVal_packVal {k : Kind} {v : FieldVal} (extra : List Nat)
    (h : validVal k v = true) : unpackVal k (packVal k v ++ extra) = v := by
  cases k with
  | scalar t =>
      cases v with
      | num n =>
          simp only [packVal, unpackVal]
          rw [unpackScalar_packScalar t n extra h]
      | bytes s => simp [validVal] at h
      | arr vs => simp [validVal] at h
  | bytestr n =>
      cases v with
      | num m => simp [validVal] at h
      | bytes s =>
          simp only [validVal, Bool.and_eq_true, beq_iff_eq, List.all_eq_true,
            decide_eq_true_eq] at h
          obtain ⟨hlen, hall⟩ := h
          subst hlen
          have hmap : s.map (· % 256) = s := by
            conv_rhs => rw [← List.map_id s]
            exact List.map_congr_left fun b hb => Nat.mod_eq_of_lt (hall b hb)
          simp only [packVal, unpackVal, List.take_length, hmap, Nat.sub_self,
            List.replicate_zero, List.append_nil]
          rw [List.take_left' rfl]
      | arr vs => simp [validVal] at h
  | numarr t n =>
      cases v with
      | num m => simp [validVal] at h
      | bytes s => simp [validVal] at h
      | arr vs =>
          simp only [validVal, Bool.and_eq_true, beq_iff_eq, List.all_eq_true] at h
          obtain ⟨hlen, hall⟩ := h
          subst hlen
          simp only [packVal, unpackVal, List.take_length, Nat.sub_self,
            Nat.zero_mul, List.replicate_zero, List.append_nil]
          rw [unpackNums_pack t vs extra hall]

/-- A validly assigned value list packs to the format's byte width. -/
theorem packFields_length {fs : List Field} {vs : List FieldVal}
    (h : List.Forall₂ (fun f v => validVal f.kind v = true) fs vs) :
    (packFields fs vs).length = formatSize fs := by
  induction h with
  | nil => rfl
  | cons hfv htail ih =>
      rename_i f v fs' vs'
      show (packVal f.kind v ++ packFields fs' vs').length = formatSize (f :: fs')
      rw [List.length_append, packVal_length hfv, ih]
      simp [formatSize, Field.size]

/-- Unpacking a validly assigned packed value list recovers it, regardless
of trailing bytes. -/
theorem unpackFields_packFields {fs : List Field} {vs : List FieldVal}
    (extra : List Nat)
    (h : List.Forall₂ (fun f v => validVal f.kind v = true) fs vs) :
    unpackFields fs (packFields fs vs ++ extra) = vs := by
  induction h generalizing extra with
  | nil => rfl
  | cons hfv htail ih =>
      rename_i f v fs' vs'
      simp only [packFields, unpackFields, List.append_assoc]
      rw [unpackVal_packVal _ hfv]
      rw [List.drop_left' (show (packVal f.kind v).length = f.size from packVal_length hfv), ih]

/-- `jspack.Unpack` over a packed value list with any trailing bytes
succeeds and recovers the values. -/
theorem unpackFormat_packFields {fs : List Field} {vs : List FieldVal}
    (extra : List Nat)
    (h : List.Forall₂ (fun f v => validVal f.kind v = true) fs vs) :
    unpackFormat fs (packFields fs vs ++ extra) = some vs := by
  unfold unpackFormat
  rw [if_neg (by rw [List.length_append, packFields_length h]; omega)]
  rw [unpackFields_packFields extra h]

/-- One X25 step stays below `2^16` (the final X25 mask). -/
theorem x25Step_lt (crc e : Nat) : x25Step crc e < 65536 := by
  unfold x25Step
  have h : (65535 : Nat) < 2 ^ 16 := by norm_num
  exact lt_of_lt_of_le (Nat.and_lt_two_pow _ h) (by norm_num)

/-- The CRC of a single byte stays below `2^16`; in particular every
transmitted checksum (which ends with the `crc_extra` fold) is a `uint16`. -/
theorem x25Crc_single_lt (e seed : Nat) : x25Crc [e] seed < 65536 := by
  unfold x25Crc x25Core
  simp only [List.foldl_cons, List.foldl_nil]
  exact x25Step_lt _ _

/-- A member field's name occurs in the declaration-name list, within
bounds of the declaration-order field list. -/
theorem indexOf_name_lt {s : Schema} {f : Field} (hf : f ∈ s.fields) :
    s.fieldNames.indexOf f.name < s.fields.length := by
  have hmem : f.name ∈ s.fieldNames := List.mem_map_of_mem Field.name hf
  have h := List.indexOf_lt_length.mpr hmem
  simpa [Schema.fieldNames] using h

/-- With distinct declaration names, the field found at a member field's
name index is that field itself. -/
theorem fields_getElem_indexOf {s : Schema} (hnodup : s.fieldNames.Nodup)
    {f : Field} (hf : f ∈ s.fields)
    (h : s.fieldNames.indexOf f.name < s.fields.length) :
    s.fields[s.fieldNames.indexOf f.name] = f := by
  obtain ⟨j, hj, rfl⟩ := List.getElem_of_mem hf
  have hjn : j < s.fieldNames.length := by simpa [Schema.fieldNames] using hj
  have hidx : s.fieldNames.indexOf (s.fields[j]).name = j := by
    have hname : (s.fields[j]).name = s.fieldNames[j] := by
      simp [Schema.fieldNames]
    rw [hname]
    exact List.indexOf_getElem hnodup j hjn
  simp only [hidx]

/-- The wire-order argument list of the generated `pack` call is a validly
assigned value list for the wire-order fields. -/
theorem orderedVals_valid {s : Schema}
    (hperm : s.ordered_fields.Perm s.fields) (hnodup : s.fieldNames.Nodup)
    {vals : List FieldVal}
    (hvalid : List.Forall₂ (fun f v => validVal f.kind v = true) s.fields vals) :
    List.Forall₂ (fun f v => validVal f.kind v = true)
      s.ordered_fields (orderedVals s vals) := by
  have hlen : s.fields.length = vals.length := hvalid.length_eq
  rw [List.forall₂_iff_get]
  refine ⟨by simp [orderedVals], ?_⟩
  intro i h1 h2
  simp only [orderedVals, List.get_eq_getElem, List.getElem_map]
  have hfm : s.ordered_fields[i] ∈ s.fields :=
    hperm.mem_iff.mp (List.getElem_mem h1)
  have hi : s.fieldNames.indexOf (s.ordered_fields[i]).name < s.fields.length :=
    indexOf_name_lt hfm
  have hfi := fields_getElem_indexOf hnodup hfm hi
  have hpt := (List.forall₂_iff_get.mp hvalid).2
    (s.fieldNames.indexOf (s.ordered_fields[i]).name) hi (by omega)
  simp only [List.get_eq_getElem] at hpt
  rw [hfi] at hpt
  rw [List.getD_eq_getElem vals (.num 0) (by omega)]
  exact hpt

/-- Applying the generated `order_map` to the wire-order values restores
the declaration-order values: the reorder loop of `decode` undoes the
reordering of `pack` for any permutation registry. -/
theorem reorder_recovers {s : Schema}
    (hperm : s.ordered_fields.Perm s.fields) (hnodup : s.fieldNames.Nodup)
    {vals : List FieldVal} (hlen : vals.length = s.fields.length) :
    reorderFields s.toMsgDef (orderedVals s vals) = vals := by
  have hol : s.ordered_fields.length = s.fields.length := hperm.length_eq
  have ht : (orderedVals s vals).length = s.fields.length := by
    simp [orderedVals, hol]
  have hnl : s.fieldNames.length = s.fields.length := by simp [Schema.fieldNames]
  have honl : s.orderedNames.length = s.ordered_fields.length := by
    simp [Schema.orderedNames]
  apply List.ext_getElem
  · simp [reorderFields, ht, hlen]
  intro i hi1 hi2
  have hif : i < s.fields.length := by
    simpa [reorderFields, ht] using hi1
  have hin : i < s.fieldNames.length := by omega
  obtain ⟨nm, hnmdef⟩ : ∃ nm, s.fieldNames[i] = nm := ⟨_, rfl⟩
  simp only [reorderFields, List.getElem_map, List.getElem_range]
  have hidx : s.toMsgDef.order_map.getD i (orderedVals s vals).length
      = s.orderedNames.indexOf nm := by
    show (s.fieldNames.map fun n => s.orderedNames.indexOf n).getD i _ = _
    rw [List.getD_eq_getElem _ _ (by simpa using hin)]
    simp [← hnmdef]
  rw [hidx]
  have hnm_field : (s.fields[i]).name = nm := by
    rw [← hnmdef]
    simp [Schema.fieldNames]
  have hmemo : s.fields[i] ∈ s.ordered_fields :=
    hperm.mem_iff.mpr (List.getElem_mem hif)
  have hnmem : nm ∈ s.orderedNames := by
    rw [← hnm_field]
    exact List.mem_map_of_mem Field.name hmemo
  have hj : s.orderedNames.indexOf nm < s.orderedNames.length :=
    List.indexOf_lt_length.mpr hnmem
  have hjo : s.orderedNames.indexOf nm < s.ordered_fields.length := by omega
  have hback : (s.ordered_fields[s.orderedNames.indexOf nm]).name = nm := by
    have h1 : s.orderedNames.get ⟨s.orderedNames.indexOf nm, hj⟩ = nm :=
      List.indexOf_get hj
    simp only [List.get_eq_getElem] at h1
    have h2 : s.orderedNames[s.orderedNames.indexOf nm]
        = (s.ordered_fields[s.orderedNames.indexOf nm]).name :=
      List.getElem_map Field.name
    rw [← h2]
    exact h1
  have hval : (orderedVals s vals).getD (s.orderedNames.indexOf nm) (.num 0)
      = vals.getD (s.fieldNames.indexOf nm) (.num 0) := by
    rw [List.getD_eq_getElem _ _ (by rw [ht]; omega)]
    simp [orderedVals, hback]
  rw [hval]
  have hii : s.fieldNames.indexOf nm = i := by
    rw [← hnmdef]
    exact List.indexOf_getElem hnodup i hin
  rw [hii, List.getD_eq_getElem vals (.num 0) (by omega)]

/-- C1: for every message type registered in the registry (a permutation
wire order over distinctly named declared fields whose payload fits one
length byte) and any valid assignment of its declared field values,
decoding the frame produced by `pack` yields a message whose declared
fields all equal the original values; the provenance fields (`msgbuf`,
`payload`, `crc`, `header`) are not constrained by the equality. -/
theorem roundtrip_decode_pack {map : Nat → Option MsgDef} {s : Schema}
    {vals : List FieldVal} (seq sys comp : Nat)
    (hmap : map s.id = some s.toMsgDef)
    (hperm : s.ordered_fields.Perm s.fields)
    (hnodup : s.fieldNames.Nodup)
    (hvalid : List.Forall₂ (fun f v => validVal f.kind v = true) s.fields vals)
    (hid : s.id < 256)
    (hsize : formatSize s.ordered_fields ≤ 255) :
    ∃ m, decode map (schemaPack 254 s vals seq sys comp) = .ok m ∧ m.fields = vals := by
  have hvalid2 := orderedVals_valid hperm hnodup hvalid
  obtain ⟨payload, hpay⟩ : ∃ p, packFields s.ordered_fields (orderedVals s vals) = p :=
    ⟨_, rfl⟩
  have hpl : payload.length = formatSize s.ordered_fields := by
    rw [← hpay]
    exact packFields_length hvalid2
  have hplm : payload.length % 256 = payload.length := Nat.mod_eq_of_lt (by omega)
  have hidm : s.id % 256 = s.id := Nat.mod_eq_of_lt hid
  obtain ⟨tl, htl⟩ :
      ∃ tl, [payload.length, seq % 256, sys % 256, comp % 256, s.id] ++ payload = tl :=
    ⟨_, rfl⟩
  obtain ⟨crcval, hcrc⟩ : ∃ c, x25Crc [s.crc_extra] (x25Crc tl 0) = c := ⟨_, rfl⟩
  have hframe : schemaPack 254 s vals seq sys comp = (254 :: tl) ++ toLE 2 crcval := by
    unfold schemaPack messagePackRaw headerPack
    rw [hpay, ← hcrc, ← htl]
    simp [hplm, hidm]
  have htll : tl.length = payload.length + 5 := by
    rw [← htl]
    simp
  have hcrclt : crcval < 65536 := by
    rw [← hcrc]
    exact x25Crc_single_lt _ _
  have htle : toLE 2 crcval = [crcval % 256, crcval / 256 % 256] := by
    simp [toLE]
  have hflen : ((254 :: tl) ++ toLE 2 crcval).length = payload.length + 8 := by
    rw [htle]
    simp [htll]
  rw [hframe]
  have hF2 : ((254 :: tl) ++ toLE 2 crcval).getD 0 0 = 254 := by
    simp
  have hF3 : ((254 :: tl) ++ toLE 2 crcval).getD 1 0 = payload.length := by
    rw [← htl]
    simp
  have hF4 : ((254 :: tl) ++ toLE 2 crcval).getD 5 0 = s.id := by
    rw [← htl]
    simp [List.getD_append, List.getD]
  have hF5 : ((254 :: tl) ++ toLE 2 crcval).drop
      (((254 :: tl) ++ toLE 2 crcval).length - 2) = toLE 2 crcval := by
    rw [hflen]
    have h2 : (254 :: tl).length = payload.length + 8 - 2 := by
      simp [htll]
    exact List.drop_left' h2
  have hF6 : (((254 :: tl) ++ toLE 2 crcval).drop 1).take
      (((254 :: tl) ++ toLE 2 crcval).length - 3) = tl := by
    rw [hflen]
    have hd : ((254 :: tl) ++ toLE 2 crcval).drop 1 = tl ++ toLE 2 crcval := by
      simp
    rw [hd]
    exact List.take_left' (by omega)
  have hF7 : ((254 :: tl) ++ toLE 2 crcval).drop 6 = payload ++ toLE 2 crcval := by
    rw [← htl]
    simp [List.drop]
  have h1 : ¬ ((254 :: tl) ++ toLE 2 crcval).length < 6 := by
    rw [hflen]
    omega
  have h3 : ((((254 :: tl) ++ toLE 2 crcval).getD 1 0 : Nat) : Int)
      = (((254 :: tl) ++ toLE 2 crcval).length : Int) - 8 := by
    rw [hF3, hflen]
    push_cast
    ring
  have h4 : map (((254 :: tl) ++ toLE 2 crcval).getD 5 0) = some s.toMsgDef := by
    rw [hF4]
    exact hmap
  have h5 : ¬ (((254 :: tl) ++ toLE 2 crcval).drop
      (((254 :: tl) ++ toLE 2 crcval).length - 2)).length < 2 := by
    rw [hF5, htle]
    simp
  have h8 : receivedCrc ((254 :: tl) ++ toLE 2 crcval) = crcval := by
    unfold receivedCrc
    rw [hF5, htle]
    simp [List.getD]
    omega
  have h9 : computedCrc s.toMsgDef ((254 :: tl) ++ toLE 2 crcval) = crcval := by
    unfold computedCrc
    rw [hF6]
    exact hcrc
  have h6 : receivedCrc ((254 :: tl) ++ toLE 2 crcval)
      = computedCrc s.toMsgDef ((254 :: tl) ++ toLE 2 crcval) := by
    rw [h8, h9]
  have h7 : unpackFormat s.toMsgDef.format (((254 :: tl) ++ toLE 2 crcval).drop 6)
      = some (orderedVals s vals) := by
    rw [hF7, ← hpay]
    exact unpackFormat_packFields _ hvalid2
  refine ⟨_, decode_eq_ok h1 hF2 h3 h4 h5 h6 h7, ?_⟩
  exact reorder_recovers hperm hnodup hvalid.length_eq.symm

/-- The resync stage is silent exactly when the buffer is empty or starts
with the hardcoded byte 254. -/
theorem parsePrefixStep_none_iff (st : MState) :
    (parsePrefixStep st).2 = none ↔ st.buf = [] ∨ st.buf.getD 0 0 = 254 := by
  unfold parsePrefixStep
  split
  · rename_i hc
    refine iff_of_false (by simp) ?_
    rintro (h | h)
    · rw [h] at hc
      simp at hc
    · exact absurd h hc.2
  · rename_i hc
    refine iff_of_true rfl ?_
    push_neg at hc
    by_cases hb : st.buf = []
    · exact .inl hb
    · exact .inr (hc (List.length_pos.mpr hb))

/-- A `parsePayload` call that does anything had a full candidate frame:
its guard held. -/
theorem parsePayload_guard {map : Nat → Option MsgDef} {st st4 : MState}
    {r : Except MavErr (Option DecodedMsg)}
    (h : parsePayload map st = (st4, r)) (hr : r ≠ .ok none) :
    8 ≤ st.expected_length ∧ st.expected_length ≤ st.buf.length := by
  unfold parsePayload at h
  split at h
  · rename_i hc
    exact hc
  · rw [Prod.mk.injEq] at h
    exact absurd h.2.symm hr

/-- A throwing resync step commutes with appending bytes to the buffer:
the appended bytes ride along untouched. -/
theorem parsePrefixStep_append_some (d : List Nat) {st stp : MState} {e : MavErr}
    (h : parsePrefixStep st = (stp, some e)) :
    parsePrefixStep (pushBuffer (some d) st) = (pushBuffer (some d) stp, some e) := by
  unfold parsePrefixStep at h
  split at h
  · rename_i hc
    rw [Prod.mk.injEq] at h
    obtain ⟨h1, h2⟩ := h
    injection h2 with h2
    unfold parsePrefixStep pushBuffer
    rw [if_pos ⟨by simp only [List.length_append]; omega,
      by rw [List.getD_append _ _ _ _ (by omega)]; exact hc.2⟩]
    rw [List.take_append_of_le_length (by omega),
      List.drop_append_of_le_length (by omega),
      List.getD_append _ _ _ _ (by omega)]
    rw [← h1, ← h2]
  · rw [Prod.mk.injEq] at h
    exact absurd h.2 (by simp)

/-- `parseLength` commutes with appending bytes once the length byte is
already buffered. -/
theorem parseLength_append (d : List Nat) (st : MState) (h2 : 2 ≤ st.buf.length) :
    parseLength (pushBuffer (some d) st) = pushBuffer (some d) (parseLength st) := by
  unfold parseLength pushBuffer
  rw [if_pos h2, if_pos (by simp only [List.length_append]; omega)]
  rw [List.getD_append _ _ _ _ (by omega)]

/-- `parsePayload` commutes with appending bytes once a full candidate
frame is buffered: the same frame is sliced, decoded and removed, and the
appended bytes stay at the back of the buffer. -/
theorem parsePayload_append (map : Nat → Option MsgDef) (d : List Nat) (st : MState)
    (hg : 8 ≤ st.expected_length) (hle : st.expected_length ≤ st.buf.length) :
    parsePayload map (pushBuffer (some d) st)
      = (pushBuffer (some d) (parsePayload map st).1, (parsePayload map st).2) := by
  unfold parsePayload pushBuffer
  dsimp only []
  rw [if_pos ⟨hg, by simp only [List.length_append]; omega⟩, if_pos ⟨hg, hle⟩]
  rw [List.take_append_of_le_length hle, List.drop_append_of_le_length hle]
  cases decode map (st.buf.take st.expected_length) <;> rfl

/-- A message-yielding `parseChar()` step commutes with appending bytes to
the buffer: the same message is produced and the appended bytes stay
buffered. -/
theorem parseChar_append (map : Nat → Option MsgDef) (d : List Nat)
    {st st2 : MState} {m : Msg} (h : parseChar map none st = (st2, some m)) :
    parseChar map none (pushBuffer (some d) st)
      = (pushBuffer (some d) st2, some m) := by
  unfold parseChar at h ⊢
  rw [show pushBuffer none st = st from rfl] at h
  rw [show pushBuffer none (pushBuffer (some d) st) = pushBuffer (some d) st from rfl]
  dsimp only [] at h ⊢
  cases hp : parsePrefixStep st with
  | mk stp op =>
    rw [hp] at h
    cases op with
    | some e =>
        dsimp only [] at h
        rw [Prod.mk.injEq] at h
        obtain ⟨h1, h2⟩ := h
        injection h2 with h2
        subst h1
        subst h2
        rw [parsePrefixStep_append_some d hp]
        rfl
    | none =>
        rw [parsePrefixStep_none hp] at h
        dsimp only [] at h
        cases hq : parsePayload map (parseLength st) with
        | mk st4 r =>
          rw [hq] at h
          have hrr : r ≠ .ok none := by
            intro hr
            rw [hr] at h
            dsimp only [] at h
            exact Option.noConfusion (Prod.mk.injEq .. ▸ h).2
          have hguard := parsePayload_guard hq hrr
          rw [parseLength_buf] at hguard
          have hne : st.buf ≠ [] := by
            intro hnil
            rw [hnil] at hguard
            simp at hguard
            omega
          have h254 : st.buf.getD 0 0 = 254 := by
            have hn2 : (parsePrefixStep st).2 = none := by rw [hp]
            rcases (parsePrefixStep_none_iff st).mp hn2 with hnil | hh
            · exact absurd hnil hne
            · exact hh
          have hpA : parsePrefixStep (pushBuffer (some d) st)
              = (pushBuffer (some d) st, none) := by
            unfold parsePrefixStep pushBuffer
            rw [if_neg ?_]
            rintro ⟨-, hgg⟩
            exact hgg (by
              rw [List.getD_append _ _ _ _ (by
                have := List.length_pos.mpr hne
                omega)]
              exact h254)
          rw [hpA]
          dsimp only []
          rw [parseLength_append d st (by omega)]
          rw [parsePayload_append map d (parseLength st) hguard.1
            (by rw [parseLength_buf]; exact hguard.2)]
          rw [hq]
          cases r with
          | ok o =>
              cases o with
              | some m' =>
                  dsimp only [] at h ⊢
                  rw [Prod.mk.injEq] at h
                  obtain ⟨h1, h2⟩ := h
                  injection h2 with h2
                  subst h1
                  subst h2
                  rfl
              | none => exact absurd rfl hrr
          | error e =>
              dsimp only [] at h ⊢
              rw [Prod.mk.injEq] at h
              obtain ⟨h1, h2⟩ := h
              injection h2 with h2
              subst h1
              subst h2
              rfl

/-- A `parsePayload` call yielding no message leaves the state unchanged. -/
theorem parsePayload_none {map : Nat → Option MsgDef} {st st4 : MState}
    (h : parsePayload map st = (st4, .ok none)) : st4 = st := by
  unfold parsePayload at h
  split at h
  · dsimp only [] at h
    split at h <;>
    · rw [Prod.mk.injEq] at h
      exact absurd h.2 (by simp)
  · rw [Prod.mk.injEq] at h
    exact h.1.symm

/-- A silent `parseChar()` step only reruns `parseLength`. -/
theorem parseChar_none_eq {map : Nat → Option MsgDef} {st st2 : MState}
    (h : parseChar map none st = (st2, none)) : st2 = parseLength st := by
  unfold parseChar at h
  rw [show pushBuffer none st = st from rfl] at h
  dsimp only [] at h
  cases hp : parsePrefixStep st with
  | mk stp op =>
    rw [hp] at h
    cases op with
    | some e =>
        dsimp only [] at h
        exact Option.noConfusion (Prod.mk.injEq .. ▸ h).2
    | none =>
        rw [parsePrefixStep_none hp] at h
        dsimp only [] at h
        cases hq : parsePayload map (parseLength st) with
        | mk st4 r =>
          rw [hq] at h
          cases r with
          | ok o =>
              cases o with
              | some m' =>
                  dsimp only [] at h
                  exact Option.noConfusion (Prod.mk.injEq .. ▸ h).2
              | none =>
                  dsimp only [] at h
                  rw [Prod.mk.injEq] at h
                  rw [← h.1, parsePayload_none hq]
          | error e =>
              dsimp only [] at h
              exact Option.noConfusion (Prod.mk.injEq .. ▸ h).2

/-- Two states whose `parseChar()` steps coincide drain identically. -/
theorem loopRun_congr {map : Nat → Option MsgDef} {a b : MState}
    (h : parseChar map none a = parseChar map none b) :
    loopRun map a = loopRun map b := by
  rw [loopRun_unfold map a, loopRun_unfold map b, h]

/-- With the length byte buffered, the incoming `expected_length` is
irrelevant to a `parseChar()` step: `parseLength` overwrites it before
`parsePayload` reads it, and the resync path resets it. -/
theorem parseChar_exp_irrelevant (map : Nat → Option MsgDef) (st : MState) (e : Nat)
    (h2 : 2 ≤ st.buf.length) :
    parseChar map none { st with expected_length := e } = parseChar map none st := by
  unfold parseChar
  rw [show pushBuffer none { st with expected_length := e }
    = { st with expected_length := e } from rfl]
  rw [show pushBuffer none st = st from rfl]
  dsimp only []
  unfold parsePrefixStep
  by_cases hc : 1 ≤ st.buf.length ∧ st.buf.getD 0 0 ≠ 254
  · rw [if_pos (show 1 ≤ ({ st with expected_length := e } : MState).buf.length
        ∧ ({ st with expected_length := e } : MState).buf.getD 0 0 ≠ 254 from hc),
      if_pos hc]
  · rw [if_neg (show ¬ (1 ≤ ({ st with expected_length := e } : MState).buf.length
        ∧ ({ st with expected_length := e } : MState).buf.getD 0 0 ≠ 254) from hc),
      if_neg hc]
    dsimp only []
    unfold parseLength
    rw [if_pos (show 2 ≤ ({ st with expected_length := e } : MState).buf.length from h2),
      if_pos h2]

/-- A silent `parseChar()` step commutes with a later append: pushing the
chunk onto the stepped state or the original state gives the same next
step. -/
theorem parseChar_none_append (map : Nat → Option MsgDef) (d : List Nat)
    {st st2 : MState} (h : parseChar map none st = (st2, none)) :
    parseChar map none (pushBuffer (some d) st2)
      = parseChar map none (pushBuffer (some d) st) := by
  have hst2 : st2 = parseLength st := parseChar_none_eq h
  by_cases h2 : 2 ≤ st.buf.length
  · have hlen : parseLength st = { st with expected_length := st.buf.getD 1 0 + 8 } := by
      unfold parseLength
      rw [if_pos h2]
    have hA : pushBuffer (some d) st2
        = { pushBuffer (some d) st with expected_length := st.buf.getD 1 0 + 8 } := by
      rw [hst2, hlen]
      rfl
    rw [hA]
    exact parseChar_exp_irrelevant map (pushBuffer (some d) st) _
      (by simp only [pushBuffer, List.length_append]; omega)
  · have hlen : parseLength st = st := by
      unfold parseLength
      rw [if_neg h2]
    rw [hst2, hlen]

/-- Draining after an append equals draining first and then draining the
appended bytes from the drained state, with outputs concatenated. -/
theorem loopRun_append (map : Nat → Option MsgDef) (d : List Nat) :
    ∀ n (st : MState), st.buf.length ≤ n →
    loopRun map (pushBuffer (some d) st)
      = ((loopRun map (pushBuffer (some d) (loopRun map st).1)).1,
         (loopRun map st).2 ++ (loopRun map (pushBuffer (some d) (loopRun map st).1)).2) := by
  intro n
  induction n with
  | zero =>
      intro st hn
      cases hc : parseChar map none st with
      | mk stq o =>
        cases o with
        | none =>
            have hL : loopRun map st = (stq, []) := by rw [loopRun_unfold, hc]
            rw [hL]
            dsimp only []
            rw [List.nil_append]
            rw [loopRun_congr (parseChar_none_append map d hc)]
        | some m =>
            have := parseChar_progress hc
            omega
  | succ k ih =>
      intro st hn
      cases hc : parseChar map none st with
      | mk stq o =>
        cases o with
        | none =>
            have hL : loopRun map st = (stq, []) := by rw [loopRun_unfold, hc]
            rw [hL]
            dsimp only []
            rw [List.nil_append]
            rw [loopRun_congr (parseChar_none_append map d hc)]
        | some m =>
            have hL : loopRun map st = ((loopRun map stq).1, m :: (loopRun map stq).2) := by
              rw [loopRun_unfold, hc]
            have hpc2 := parseChar_append map d hc
            have hLA : loopRun map (pushBuffer (some d) st)
                = ((loopRun map (pushBuffer (some d) stq)).1,
                   m :: (loopRun map (pushBuffer (some d) stq)).2) := by
              rw [loopRun_unfold, hpc2]
            have hprog := parseChar_progress hc
            rw [hLA, hL, ih stq (by omega)]
            simp

/-- Pushing a chunk and stepping equals stepping with no chunk after the
buffer append: `parseChar(s)` is `pushBuffer(s)` then `parseChar()`. -/
theorem parseBuffer_eq_loopRun (map : Nat → Option MsgDef) (d : List Nat) (st : MState) :
    parseBuffer map d st = loopRun map (pushBuffer (some d) st) := by
  unfold parseBuffer
  rw [show parseChar map (some d) st
    = parseChar map none (pushBuffer (some d) st) from rfl]
  rw [loopRun_unfold map (pushBuffer (some d) st)]

/-- Appending two chunks to the buffer in sequence is appending their
concatenation. -/
theorem pushBuffer_comp (a b : List Nat) (st : MState) :
    pushBuffer (some b) (pushBuffer (some a) st) = pushBuffer (some (a ++ b)) st := by
  simp [pushBuffer, List.append_assoc, List.length_append, Nat.add_assoc]

/-- One `push` of a concatenation equals two consecutive `push` calls with
outputs concatenated. -/
theorem parseBuffer_append (map : Nat → Option MsgDef) (a b : List Nat) (st : MState) :
    parseBuffer map (a ++ b) st
      = ((parseBuffer map b (parseBuffer map a st).1).1,
         (parseBuffer map a st).2 ++ (parseBuffer map b (parseBuffer map a st).1).2) := by
  rw [parseBuffer_eq_loopRun, parseBuffer_eq_loopRun, parseBuffer_eq_loopRun]
  rw [← pushBuffer_comp]
  exact loopRun_append map b (pushBuffer (some a) st).buf.length
    (pushBuffer (some a) st) le_rfl

/-- C4: fragmentation invariance — splitting any byte sequence at
arbitrary chunk boundaries and calling `push` (`parseBuffer`) once per
chunk on the same connection state yields, concatenated in order, exactly
the same messages and the same final state as one `push` of the whole
sequence. The claim's valid-frame streams are the special case where the
yielded messages are decoded messages. -/
theorem fragmentation_invariance (map : Nat → Option MsgDef) (c : List Nat)
    (cs : List (List Nat)) (st : MState) :
    pushChunks map (c :: cs) st = parseBuffer map ((c :: cs).flatten) st := by
  induction cs generalizing c st with
  | nil =>
      show ((pushChunks map [] (parseBuffer map c st).1).1,
        (parseBuffer map c st).2 ++ (pushChunks map [] (parseBuffer map c st).1).2)
        = parseBuffer map ([c].flatten) st
      rw [show pushChunks map [] (parseBuffer map c st).1
        = ((parseBuffer map c st).1, []) from rfl]
      rw [show ([c] : List (List Nat)).flatten = c ++ [] from rfl]
      rw [List.append_nil]
      simp
  | cons c2 cs ih =>
      rw [show pushChunks map (c :: c2 :: cs) st
          = ((pushChunks map (c2 :: cs) (parseBuffer map c st).1).1,
             (parseBuffer map c st).2
               ++ (pushChunks map (c2 :: cs) (parseBuffer map c st).1).2)
        from rfl]
      rw [ih c2 (parseBuffer map c st).1]
      rw [show ((c :: c2 :: cs) : List (List Nat)).flatten
        = c ++ (c2 :: cs).flatten from rfl]
      rw [parseBuffer_append map c ((c2 :: cs).flatten) st]

/-- C3: `decode` checks its seven failure conditions in exactly the source
order — structural header-unpack failure, marker-byte mismatch, length
field not equal to `length - 8`, unknown message id, malformed CRC
trailer, CRC mismatch, payload-unpack failure — each a distinct error;
each fires exactly when its condition holds and every earlier one does
not, no message is produced on failure, and success means every
validation passed (all-or-nothing). -/
theorem decode_validation_order (map : Nat → Option MsgDef) (msgbuf : List Nat) :
    (decodeTag (decode map msgbuf) = some .headerUnpack ↔ msgbuf.length < 6) ∧
    (decodeTag (decode map msgbuf) = some .badMagic ↔
      ¬ msgbuf.length < 6 ∧ msgbuf.getD 0 0 ≠ 254) ∧
    (decodeTag (decode map msgbuf) = some .lengthMismatch ↔
      ¬ msgbuf.length < 6 ∧ msgbuf.getD 0 0 = 254 ∧
        (msgbuf.getD 1 0 : Int) ≠ (msgbuf.length : Int) - 8) ∧
    (decodeTag (decode map msgbuf) = some .unknownMsgId ↔
      ¬ msgbuf.length < 6 ∧ msgbuf.getD 0 0 = 254 ∧
        (msgbuf.getD 1 0 : Int) = (msgbuf.length : Int) - 8 ∧
        map (msgbuf.getD 5 0) = none) ∧
    (decodeTag (decode map msgbuf) = some .crcUnpack ↔
      ¬ msgbuf.length < 6 ∧ msgbuf.getD 0 0 = 254 ∧
        (msgbuf.getD 1 0 : Int) = (msgbuf.length : Int) - 8 ∧
        (∃ dec, map (msgbuf.getD 5 0) = some dec) ∧
        (msgbuf.drop (msgbuf.length - 2)).length < 2) ∧
    (decodeTag (decode map msgbuf) = some .crcMismatch ↔
      ¬ msgbuf.length < 6 ∧ msgbuf.getD 0 0 = 254 ∧
        (msgbuf.getD 1 0 : Int) = (msgbuf.length : Int) - 8 ∧
        (∃ dec, map (msgbuf.getD 5 0) = some dec ∧
          ¬ (msgbuf.drop (msgbuf.length - 2)).length < 2 ∧
          receivedCrc msgbuf ≠ computedCrc dec msgbuf)) ∧
    (decodeTag (decode map msgbuf) = some .payloadUnpack ↔
      ¬ msgbuf.length < 6 ∧ msgbuf.getD 0 0 = 254 ∧
        (msgbuf.getD 1 0 : Int) = (msgbuf.length : Int) - 8 ∧
        (∃ dec, map (msgbuf.getD 5 0) = some dec ∧
          ¬ (msgbuf.drop (msgbuf.length - 2)).length < 2 ∧
          receivedCrc msgbuf = computedCrc dec msgbuf ∧
          unpackFormat dec.format (msgbuf.drop 6) = none)) ∧
    ((∃ m, decode map msgbuf = .ok m) ↔
      ¬ msgbuf.length < 6 ∧ msgbuf.getD 0 0 = 254 ∧
        (msgbuf.getD 1 0 : Int) = (msgbuf.length : Int) - 8 ∧
        (∃ dec, map (msgbuf.getD 5 0) = some dec ∧
          ¬ (msgbuf.drop (msgbuf.length - 2)).length < 2 ∧
          receivedCrc msgbuf = computedCrc dec msgbuf ∧
          ∃ t, unpackFormat dec.format (msgbuf.drop 6) = some t)) := by
  rcases decode_shape map msgbuf with
      ⟨hc1, hdec⟩ | ⟨hc1, hc2, hdec⟩ | ⟨hc1, hc2, hc3, hdec⟩ | ⟨hc1, hc2, hc3, hc4, hdec⟩ |
      ⟨dec, hc1, hc2, hc3, hc4, hc5, hdec⟩ | ⟨dec, hc1, hc2, hc3, hc4, hc5, hc6, hdec⟩ |
      ⟨dec, hc1, hc2, hc3, hc4, hc5, hc6, hc7, hdec⟩ |
      ⟨dec, t, hc1, hc2, hc3, hc4, hc5, hc6, hc7, hdec⟩ <;>
    rw [hdec]
  · simp_all [decodeTag, DecodeErr.tag]
  · simp_all [decodeTag, DecodeErr.tag]
  · simp_all [decodeTag, DecodeErr.tag]
  · simp_all [decodeTag, DecodeErr.tag]
  · simp_all [decodeTag, DecodeErr.tag]
  · simp_all [decodeTag, DecodeErr.tag]
  · simp_all [decodeTag, DecodeErr.tag]
  · simp_all [decodeTag, DecodeErr.tag]

/-- C10: the checksum's seed argument is defaulted through a falsy-value
check (`crc = crc || 0xffff`), so an explicit seed of 0 computes exactly
what the default seed `0xffff` computes — no caller can start the CRC
chain from seed 0 — while every non-zero seed starts the accumulation
loop from itself. -/
theorem x25Crc_seed_falsy (bytes : List Nat) :
    x25Crc bytes 0 = x25Crc bytes 0xffff ∧
    ∀ s : Nat, s ≠ 0 → x25Crc bytes s = x25Core bytes s := by
  constructor
  · rfl
  · intro s hs
    unfold x25Crc
    rw [if_neg hs]

/-- Witness for C10 at seed 3 over the bytes `[1, 2]`. -/
theorem x25Crc_seed_falsy_witness :
    (3 : Nat) ≠ 0 ∧ x25Crc [1, 2] 3 = x25Core [1, 2] 3 :=
  ⟨by decide, (x25Crc_seed_falsy [1, 2]).2 3 (by decide)⟩

/-- C2: packing the all-zero HEARTBEAT (id 0, payload width 9,
`crc_extra = 50`, marker 254) with `sysid = 1, compid = 1, seq = 0`
produces exactly the 17-byte frame `FE 09 00 01 01 00` + nine `00` bytes
+ the little-endian CRC, whose value is the X25 CRC (default seed
`0xffff`) over `[09 00 01 01 00]` plus the nine zero payload bytes,
continued over the single byte 50 with the running value as seed; and
decoding that exact frame reproduces the all-zero field values and
reports sequence 0, source system 1, source component 1. -/
theorem heartbeat_concrete_frame :
    schemaPack 254 heartbeat hbZeroVals 0 1 1 = hbZeroFrame ∧
    67 + 256 * 72
      = x25Core [50] (x25Core ([9, 0, 1, 1, 0] ++ List.replicate 9 0) 0xffff) ∧
    (decode hbMap hbZeroFrame).toOption.map
        (fun m => (m.fields, m.header.seq, m.header.srcSystem, m.header.srcComponent))
      = some (hbZeroVals, 0, 1, 1) := by
  refine ⟨by decide, by decide, by decide⟩

/-- C7 counterexample: on the all-zero HEARTBEAT frame, the `payload`
provenance attached by `decode` is `msgbuf.slice(6)` — the nine payload
bytes followed by the two checksum bytes `67 72` — not the nine payload
bytes alone. -/
theorem payload_includes_crc_cex :
    (decode hbMap hbZeroFrame).toOption.map DecodedMsg.payload
      = some (List.replicate 9 0 ++ [67, 72]) ∧
    (List.replicate 9 0 ++ [67, 72] : List Nat) ≠ List.replicate 9 0 := by
  refine ⟨by decide, by decide⟩

/-- C7 amended: for every successfully decoded frame, the `payload`
provenance equals `msgbuf.drop 6` — the frame's payload bytes plus the
two trailing checksum bytes (`length + 2` bytes), not the payload alone. -/
theorem decoded_payload_slice {map : Nat → Option MsgDef} {msgbuf : List Nat}
    {m : DecodedMsg} (h : decode map msgbuf = .ok m) :
    m.payload = msgbuf.drop 6 ∧ m.payload.length = msgbuf.getD 1 0 + 2 := by
  rcases decode_shape map msgbuf with
      ⟨hc1, hdec⟩ | ⟨hc1, hc2, hdec⟩ | ⟨hc1, hc2, hc3, hdec⟩ | ⟨hc1, hc2, hc3, hc4, hdec⟩ |
      ⟨dec, hc1, hc2, hc3, hc4, hc5, hdec⟩ | ⟨dec, hc1, hc2, hc3, hc4, hc5, hc6, hdec⟩ |
      ⟨dec, hc1, hc2, hc3, hc4, hc5, hc6, hc7, hdec⟩ |
      ⟨dec, t, hc1, hc2, hc3, hc4, hc5, hc6, hc7, hdec⟩ <;>
    rw [hdec] at h
  · exact Except.noConfusion h
  · exact Except.noConfusion h
  · exact Except.noConfusion h
  · exact Except.noConfusion h
  · exact Except.noConfusion h
  · exact Except.noConfusion h
  · exact Except.noConfusion h
  · injection h with h
    subst h
    refine ⟨rfl, ?_⟩
    show (msgbuf.drop 6).length = msgbuf.getD 1 0 + 2
    rw [List.length_drop]
    omega

/-- Witness for C7's amended claim on the all-zero HEARTBEAT frame. -/
theorem decoded_payload_slice_witness :
    hbZeroDecoded.payload = hbZeroFrame.drop 6 ∧
    hbZeroDecoded.payload.length = hbZeroFrame.getD 1 0 + 2 :=
  @decoded_payload_slice hbMap hbZeroFrame hbZeroDecoded (by rfl)

/-- C6 counterexample: generating a dialect with protocol marker 85
(MAVLink 0.9's `0x55`), `pack` stamps 85 as the frame's first byte, yet
both the resync check and `decode` still demand the hardcoded byte 254
and reject the frame — the three uses do not all equal the configured
marker byte. -/
theorem marker_not_consistent_cex :
    (schemaPack 85 heartbeat hbZeroVals 0 1 1).getD 0 0 = 85 ∧
    decodeTag (decode hbMap (schemaPack 85 heartbeat hbZeroVals 0 1 1))
      = some .badMagic ∧
    (parsePrefixStep
      { initialState 1 1 with buf := schemaPack 85 heartbeat hbZeroVals 0 1 1 }).2
      ≠ none := by
  refine ⟨by decide, by decide, by decide⟩

/-- C6 amended: the byte compared by the resync check and by `decode`'s
marker check is always the constant 254 regardless of dialect, and it
coincides with the first byte every frame packed by a marker-254 dialect
carries: `headerPack 254` stamps 254, `parsePrefix` is silent exactly on
buffers starting with 254 (or empty), and `decode` reports a bad marker
exactly when a long-enough buffer does not start with 254. -/
theorem marker_consistency_254 (mlen seq sys comp id : Nat) (st : MState)
    (map : Nat → Option MsgDef) (buf : List Nat) (h6 : 6 ≤ buf.length) :
    (headerPack 254 mlen seq sys comp id).getD 0 0 = 254 ∧
    ((parsePrefixStep st).2 = none ↔ st.buf = [] ∨ st.buf.getD 0 0 = 254) ∧
    (decodeTag (decode map buf) = some .badMagic ↔ buf.getD 0 0 ≠ 254) := by
  refine ⟨by simp [headerPack], parsePrefixStep_none_iff st, ?_⟩
  rcases decode_shape map buf with
      ⟨hc1, hdec⟩ | ⟨hc1, hc2, hdec⟩ | ⟨hc1, hc2, hc3, hdec⟩ | ⟨hc1, hc2, hc3, hc4, hdec⟩ |
      ⟨dec, hc1, hc2, hc3, hc4, hc5, hdec⟩ | ⟨dec, hc1, hc2, hc3, hc4, hc5, hc6, hdec⟩ |
      ⟨dec, hc1, hc2, hc3, hc4, hc5, hc6, hc7, hdec⟩ |
      ⟨dec, t, hc1, hc2, hc3, hc4, hc5, hc6, hc7, hdec⟩ <;>
    rw [hdec]
  · omega
  · simp_all [decodeTag, DecodeErr.tag]
  · simp_all [decodeTag, DecodeErr.tag]
  · simp_all [decodeTag, DecodeErr.tag]
  · simp_all [decodeTag, DecodeErr.tag]
  · simp_all [decodeTag, DecodeErr.tag]
  · simp_all [decodeTag, DecodeErr.tag]
  · simp_all [decodeTag, DecodeErr.tag]

/-- Witness for C6's amended claim on the all-zero HEARTBEAT frame. -/
theorem marker_consistency_254_witness :
    (headerPack 254 9 0 1 1 0).getD 0 0 = 254 ∧
    ((parsePrefixStep (initialState 1 1)).2 = none ↔
      (initialState 1 1).buf = [] ∨ (initialState 1 1).buf.getD 0 0 = 254) ∧
    (decodeTag (decode hbMap hbZeroFrame) = some .badMagic ↔
      hbZeroFrame.getD 0 0 ≠ 254) :=
  marker_consistency_254 9 0 1 1 0 (initialState 1 1) hbMap hbZeroFrame (by decide)

/-- Witness for C1's round-trip on a HEARTBEAT with non-trivial field
values (the `uint32_t` field carries 70000, above one byte). -/
theorem roundtrip_decode_pack_witness :
    ∃ m, decode hbMap (schemaPack 254 heartbeat
        [FieldVal.num 1, FieldVal.num 2, FieldVal.num 3,
         FieldVal.num 70000, FieldVal.num 5, FieldVal.num 6] 7 8 9) = .ok m ∧
      m.fields = [FieldVal.num 1, FieldVal.num 2, FieldVal.num 3,
         FieldVal.num 70000, FieldVal.num 5, FieldVal.num 6] :=
  roundtrip_decode_pack 7 8 9 (by rfl) (by decide) (by decide) (by decide)
    (by decide) (by decide)

/-- C8: `send` writes a frame whose sequence byte (offset 2) is the
connection's sequence counter before the call; afterwards the counter is
the old value plus one mod 256, the packets-sent counter grew by one, the
bytes-sent counter grew by the frame's length, and no other connection
state — receive buffers, expectation, identifiers, receive counters —
changed. -/
theorem send_updates (s : Schema) (vals : List FieldVal) (st : MState)
    (hseq : st.seq < 256) :
    (send s vals st).2.getD 2 0 = st.seq ∧
    (send s vals st).1.seq = (st.seq + 1) % 256 ∧
    (send s vals st).1.total_packets_sent = st.total_packets_sent + 1 ∧
    (send s vals st).1.total_bytes_sent
      = st.total_bytes_sent + (send s vals st).2.length ∧
    (send s vals st).1.buf = st.buf ∧
    (send s vals st).1.bufInError = st.bufInError ∧
    (send s vals st).1.expected_length = st.expected_length ∧
    (send s vals st).1.srcSystem = st.srcSystem ∧
    (send s vals st).1.srcComponent = st.srcComponent ∧
    (send s vals st).1.total_packets_received = st.total_packets_received ∧
    (send s vals st).1.total_bytes_received = st.total_bytes_received ∧
    (send s vals st).1.total_receive_errors = st.total_receive_errors := by
  refine ⟨?_, rfl, rfl, rfl, rfl, rfl, rfl, rfl, rfl, rfl, rfl, rfl⟩
  show st.seq % 256 = st.seq
  exact Nat.mod_eq_of_lt hseq

/-- Witness for C8 at the all-zero HEARTBEAT on a fresh connection. -/
theorem send_updates_witness :
    (send heartbeat hbZeroVals (initialState 1 1)).2.getD 2 0
        = (initialState 1 1).seq ∧
    (send heartbeat hbZeroVals (initialState 1 1)).1.seq
        = ((initialState 1 1).seq + 1) % 256 ∧
    (send heartbeat hbZeroVals (initialState 1 1)).1.total_packets_sent
        = (initialState 1 1).total_packets_sent + 1 ∧
    (send heartbeat hbZeroVals (initialState 1 1)).1.total_bytes_sent
        = (initialState 1 1).total_bytes_sent
            + (send heartbeat hbZeroVals (initialState 1 1)).2.length ∧
    (send heartbeat hbZeroVals (initialState 1 1)).1.buf = (initialState 1 1).buf ∧
    (send heartbeat hbZeroVals (initialState 1 1)).1.bufInError
        = (initialState 1 1).bufInError ∧
    (send heartbeat hbZeroVals (initialState 1 1)).1.expected_length
        = (initialState 1 1).expected_length ∧
    (send heartbeat hbZeroVals (initialState 1 1)).1.srcSystem
        = (initialState 1 1).srcSystem ∧
    (send heartbeat hbZeroVals (initialState 1 1)).1.srcComponent
        = (initialState 1 1).srcComponent ∧
    (send heartbeat hbZeroVals (initialState 1 1)).1.total_packets_received
        = (initialState 1 1).total_packets_received ∧
    (send heartbeat hbZeroVals (initialState 1 1)).1.total_bytes_received
        = (initialState 1 1).total_bytes_received ∧
    (send heartbeat hbZeroVals (initialState 1 1)).1.total_receive_errors
        = (initialState 1 1).total_receive_errors :=
  send_updates heartbeat hbZeroVals (initialState 1 1) (by decide)

/-- Pushing a chunk first and then stepping with no chunk is the same as
one `parseChar` call with the chunk. -/
theorem parseChar_push (map : Nat → Option MsgDef) (c : Option (List Nat)) (st : MState) :
    parseChar map c st = parseChar map none (pushBuffer c st) := rfl

/-- The only error `parsePrefix` throws is the bad-prefix one. -/
theorem parsePrefixStep_err {st st2 : MState} {e : MavErr}
    (h : parsePrefixStep st = (st2, some e)) : ∃ b, e = MavErr.badMagicByte b := by
  unfold parsePrefixStep at h
  split at h
  · rw [Prod.mk.injEq] at h
    obtain ⟨-, h2⟩ := h
    injection h2 with h2
    exact ⟨_, h2.symm⟩
  · rw [Prod.mk.injEq] at h
    exact absurd h.2 (by simp)

/-- A throwing `parsePayload` call rethrows a `decode` error on the slice
of exactly `expected_length` bytes, and its guard held. -/
theorem parsePayload_error_spec {map : Nat → Option MsgDef} {st st4 : MState} {e : MavErr}
    (h : parsePayload map st = (st4, .error e)) :
    ∃ de, e = MavErr.decodeErr de ∧
      decode map (st.buf.take st.expected_length) = .error de ∧
      8 ≤ st.expected_length ∧ st.expected_length ≤ st.buf.length := by
  unfold parsePayload at h
  split at h
  · rename_i hg
    dsimp only [] at h
    split at h
    · rw [Prod.mk.injEq] at h
      exact absurd h.2 (by simp)
    · rename_i de hd
      rw [Prod.mk.injEq] at h
      obtain ⟨-, he⟩ := h
      injection he with he
      exact ⟨de, he.symm, hd, hg.1, hg.2⟩
  · rw [Prod.mk.injEq] at h
    exact absurd h.2 (by simp)

/-- Indexing inside the taken prefix reads the original list. -/
theorem getD_take {l : List Nat} {n i : Nat} (h : i < n) (d : Nat) :
    (l.take n).getD i d = l.getD i d := by
  simp [List.getD, List.getElem?_take, h]

/-- On a buffer whose length is consistent with its length byte —
`length = length_byte + 8` — `decode` can fail any way except with the
length-mismatch error. -/
theorem decodeTag_not_lengthMismatch (map : Nat → Option MsgDef) (b : List Nat)
    (hb : b.length = b.getD 1 0 + 8) :
    decodeTag (decode map b) ≠ some ETag.lengthMismatch := by
  rcases decode_shape map b with
      ⟨hc1, hdec⟩ | ⟨hc1, hc2, hdec⟩ | ⟨hc1, hc2, hc3, hdec⟩ | ⟨hc1, hc2, hc3, hc4, hdec⟩ |
      ⟨dec, hc1, hc2, hc3, hc4, hc5, hdec⟩ | ⟨dec, hc1, hc2, hc3, hc4, hc5, hc6, hdec⟩ |
      ⟨dec, hc1, hc2, hc3, hc4, hc5, hc6, hc7, hdec⟩ |
      ⟨dec, t, hc1, hc2, hc3, hc4, hc5, hc6, hc7, hdec⟩ <;> rw [hdec]
  · simp [decodeTag, DecodeErr.tag]
  · simp [decodeTag, DecodeErr.tag]
  · exact absurd (show ((b.getD 1 0 : Int)) = (b.length : Int) - 8 by
      rw [hb]; push_cast; ring) hc3
  · simp [decodeTag, DecodeErr.tag]
  · simp [decodeTag, DecodeErr.tag]
  · simp [decodeTag, DecodeErr.tag]
  · simp [decodeTag, DecodeErr.tag]
  · simp [decodeTag]

/-- No `parseChar` call — with or without an input chunk — ever yields a
`bad_data` sentinel caused by the length-mismatch branch of `decode`: the
candidate frames it slices are length-consistent by construction. -/
theorem parseChar_no_lengthMismatch (map : Nat → Option MsgDef)
    (c : Option (List Nat)) (st : MState) :
    isLengthMismatchResult (parseChar map c st).2 = false := by
  unfold parseChar
  dsimp only []
  cases hp : parsePrefixStep (pushBuffer c st) with
  | mk st2 op =>
    cases op with
    | some e =>
        obtain ⟨b, rfl⟩ := parsePrefixStep_err hp
        rfl
    | none =>
        dsimp only []
        cases hq : parsePayload map (parseLength st2) with
        | mk st4 r =>
          cases r with
          | ok o =>
              cases o with
              | some m => rfl
              | none => rfl
          | error e =>
              dsimp only []
              obtain ⟨de, rfl, hdec, h8, hle⟩ := parsePayload_error_spec hq
              rw [parseLength_buf] at hdec hle
              have h2 : 2 ≤ st2.buf.length := by omega
              have hexp : (parseLength st2).expected_length
                  = st2.buf.getD 1 0 + 8 := by
                unfold parseLength
                rw [if_pos h2]
              rw [hexp] at hdec hle
              have hlen : (st2.buf.take (st2.buf.getD 1 0 + 8)).length
                  = st2.buf.getD 1 0 + 8 :=
                List.length_take_of_le hle
              have hgd : (st2.buf.take (st2.buf.getD 1 0 + 8)).getD 1 0
                  = st2.buf.getD 1 0 :=
                getD_take (by omega) 0
              have htag := decodeTag_not_lengthMismatch map
                (st2.buf.take (st2.buf.getD 1 0 + 8)) (by rw [hlen, hgd])
              rw [hdec] at htag
              cases de <;> first
                | rfl
                | exact absurd rfl htag

/-- Every message the drain loop yields comes out of a `parseChar()` call,
so none of them is a length-mismatch sentinel. -/
theorem loopFuel_no_lengthMismatch (map : Nat → Option MsgDef) :
    ∀ fuel st m, m ∈ (loopFuel map fuel st).2 →
      isLengthMismatchResult (some m) = false := by
  intro fuel
  induction fuel with
  | zero =>
      intro st m hm
      simp [loopFuel] at hm
  | succ k ih =>
      intro st m hm
      unfold loopFuel at hm
      cases hc : parseChar map none st with
      | mk st2 o =>
        rw [hc] at hm
        cases o with
        | none => exact absurd hm (by simp)
        | some m2 =>
            dsimp only [] at hm
            rcases List.mem_cons.mp hm with rfl | hm2
            · have hfalse := parseChar_no_lengthMismatch map none st
              rw [hc] at hfalse
              exact hfalse
            · exact ih st2 m hm2

/-- C9: the `LengthMismatchError` branch of `decode` is unreachable for
frames arriving through `push` — `parseLength` sets `expected_length`
from the buffered length byte plus 8 and `parsePayload` slices exactly
that many bytes, so every candidate frame satisfies
`length = length_byte + 8` by construction: no `parseChar` result and no
message yielded by `parseBuffer` is a length-mismatch `bad_data`
sentinel. -/
theorem lengthMismatch_unreachable (map : Nat → Option MsgDef) :
    (∀ c st, isLengthMismatchResult (parseChar map c st).2 = false) ∧
    (∀ data st,
      ((parseBuffer map data st).2.all
        fun m => !(isLengthMismatchResult (some m))) = true) := by
  refine ⟨parseChar_no_lengthMismatch map, ?_⟩
  intro data st
  rw [List.all_eq_true]
  intro m hm
  rw [parseBuffer_eq_loopRun] at hm
  have hfalse := loopFuel_no_lengthMismatch map
    ((pushBuffer (some data) st).buf.length + 1) (pushBuffer (some data) st) m hm
  rw [hfalse]
  rfl

/-- An empty buffer makes `parseChar()` a silent no-op. -/
theorem parseChar_empty {map : Nat → Option MsgDef} {st : MState} (hbuf : st.buf = []) :
    parseChar map none st = (st, none) := by
  unfold parseChar
  rw [show pushBuffer none st = st from rfl]
  dsimp only []
  have hp : parsePrefixStep st = (st, none) := by
    unfold parsePrefixStep
    rw [if_neg]
    rintro ⟨h1, -⟩
    rw [hbuf] at h1
    simp at h1
  rw [hp]
  dsimp only []
  have hl : parseLength st = st := by
    unfold parseLength
    rw [if_neg]
    intro h2
    rw [hbuf] at h2
    simp at h2
  rw [hl]
  have hq : parsePayload map st = (st, .ok none) := by
    unfold parsePayload
    rw [if_neg]
    rintro ⟨h8, hle⟩
    rw [hbuf] at hle
    simp at hle
    omega
  rw [hq]

/-- A buffered non-marker byte makes `parseChar()` strip exactly that
byte into a one-byte `bad_data` sentinel, reset the expectation to 6,
clear the error buffer and count one receive error. -/
theorem parseChar_badbyte {map : Nat → Option MsgDef} {st : MState} {b : Nat}
    {rest : List Nat} (hbuf : st.buf = b :: rest) (hb : b ≠ 254) :
    parseChar map none st =
      ({ st with buf := rest, bufInError := [], expected_length := 6,
                 total_receive_errors := st.total_receive_errors + 1 },
       some (.badData [b] (.badMagicByte b))) := by
  have hp : parsePrefixStep st =
      ({ st with bufInError := [b], buf := rest, expected_length := 6 },
       some (.badMagicByte b)) := by
    unfold parsePrefixStep
    have hcond : 1 ≤ st.buf.length ∧ st.buf.getD 0 0 ≠ 254 := by
      rw [hbuf]
      exact ⟨by simp, by simpa using hb⟩
    rw [if_pos hcond, hbuf]
    rfl
  unfold parseChar
  rw [show pushBuffer none st = st from rfl]
  dsimp only []
  rw [hp]

/-- Draining a buffer that holds no marker byte yields one single-byte
`bad_data` sentinel per buffered byte, in order, empties the buffer and
counts one receive error per byte. -/
theorem loopRun_resync (map : Nat → Option MsgDef) :
    ∀ (l : List Nat) (st : MState), st.buf = l → (∀ b ∈ l, b ≠ 254) →
      st.bufInError = [] → st.expected_length = 6 →
      loopRun map st =
        ({ st with buf := [],
                   total_receive_errors := st.total_receive_errors + l.length },
         l.map fun b => Msg.badData [b] (MavErr.badMagicByte b)) := by
  intro l
  induction l with
  | nil =>
      intro st hbuf hnm hbie hexp
      rw [loopRun_unfold, parseChar_empty hbuf]
      obtain ⟨sq, bf, be, el, ss, sc, a1, a2, a3, a4, a5⟩ := st
      dsimp only [] at hbuf
      subst hbuf
      simp
  | cons b rest ih =>
      intro st hbuf hnm hbie hexp
      have hb : b ≠ 254 := hnm b (List.mem_cons_self _ _)
      rw [loopRun_unfold, parseChar_badbyte hbuf hb]
      dsimp only []
      rw [ih { st with buf := rest, bufInError := [], expected_length := 6,
                       total_receive_errors := st.total_receive_errors + 1 } rfl
            (fun x hx => hnm x (List.mem_cons_of_mem _ hx)) rfl rfl]
      obtain ⟨sq, bf, be, el, ss, sc, a1, a2, a3, a4, a5⟩ := st
      dsimp only [] at hbuf hbie hexp
      subst hbuf hbie hexp
      simp [Nat.add_comm, Nat.add_left_comm, Nat.add_assoc]

/-- C5: starting from an empty accumulation buffer, one `push`
(`parseBuffer`) of `N` bytes none of which is the marker 254 yields
exactly `N` `bad_data` sentinels, each carrying just the one offending
byte, in input order; it leaves the buffer empty, counts the `N` received
bytes and increments the receive-error counter by exactly `N`. -/
theorem resync_bad_data (map : Nat → Option MsgDef) (data : List Nat) (st : MState)
    (hbuf : st.buf = []) (hbie : st.bufInError = []) (hexp : st.expected_length = 6)
    (hnm : ∀ b ∈ data, b ≠ 254) :
    parseBuffer map data st =
      ({ st with buf := [],
                 total_bytes_received := st.total_bytes_received + data.length,
                 total_receive_errors := st.total_receive_errors + data.length },
       data.map fun b => Msg.badData [b] (MavErr.badMagicByte b)) := by
  rw [parseBuffer_eq_loopRun]
  have hbuf2 : (pushBuffer (some data) st).buf = data := by
    show st.buf ++ data = data
    rw [hbuf, List.nil_append]
  have hbie2 : (pushBuffer (some data) st).bufInError = [] := hbie
  have hexp2 : (pushBuffer (some data) st).expected_length = 6 := hexp
  rw [loopRun_resync map data (pushBuffer (some data) st) hbuf2 hnm hbie2 hexp2]
  rfl

/-- Witness for C5: three junk bytes on a fresh connection produce three
one-byte sentinels and three counted receive errors. -/
theorem resync_bad_data_witness :
    parseBuffer hbMap [1, 2, 3] (initialState 1 1) =
      ({ initialState 1 1 with buf := [],
                               total_bytes_received :=
                                 (initialState 1 1).total_bytes_received + 3,
                               total_receive_errors :=
                                 (initialState 1 1).total_receive_errors + 3 },
       [Msg.badData [1] (MavErr.badMagicByte 1),
        Msg.badData [2] (MavErr.badMagicByte 2),
        Msg.badData [3] (MavErr.badMagicByte 3)]) :=
  resync_bad_data hbMap [1, 2, 3] (initialState 1 1) rfl rfl rfl (by decide)

end Mav

